import Mathlib

/-!
Verification development for the d2 CLI multi-board rendering and
cross-reference resolution pipeline (`d2cli/main.go`).

The Go code is shallowly embedded: the board tree (`d2target.Diagram`) is a
nested inductive; Go maps are association lists with distinct keys; external
collaborators (SVG renderer, image bundlers, rasterizer, document writers,
filesystem) are an oracle record `Collab`; filesystem state is an explicit
`Disk` value threaded through the recursion; Go's `path/filepath` helpers are
re-implemented over character lists so that everything kernel-evaluates.
-/

set_option maxHeartbeats 1000000

namespace D2

/-! ## Go `strings` / `path/filepath` helpers (stdlib collaborators) -/

/-- Split a path on the separator character, like `strings.Split(p, "/")`. -/
def splitOnSlashGo : List Char → List Char → List String
  | [], acc => [String.mk acc.reverse]
  | c :: rest, acc =>
    if c = '/' then String.mk acc.reverse :: splitOnSlashGo rest []
    else splitOnSlashGo rest (c :: acc)

def splitOnSlash (s : String) : List String :=
  splitOnSlashGo s.data []

/-- Go `strings.HasSuffix`. -/
def strEndsWith (s t : String) : Bool :=
  decide (t.data <:+ s.data)

/-- Go `strings.TrimSuffix(s, t)`. -/
def trimSuffix (s t : String) : String :=
  if strEndsWith s t then String.mk (s.data.take (s.data.length - t.data.length)) else s

/-- Go `filepath.Ext`: the suffix of the final path element starting at its final dot. -/
def pathExtGo : List Char → List Char → String
  | [], _ => ""
  | c :: rest, acc =>
    if c = '/' then ""
    else if c = '.' then String.mk ('.' :: acc)
    else pathExtGo rest (c :: acc)

def pathExt (p : String) : String :=
  pathExtGo p.data.reverse []

def strLeadsWithSlash (s : String) : Bool :=
  match s.data with
  | [] => false
  | c :: _ => c = '/'

/-- Component processing of `filepath.Clean`: drop empty and `.` components and
resolve `..` against the components accumulated so far. -/
def cleanGo (rooted : Bool) : List String → List String → List String
  | [], acc => acc.reverse
  | c :: rest, acc =>
    if c = "" ∨ c = "." then cleanGo rooted rest acc
    else if c = ".." then
      match acc with
      | [] => if rooted then cleanGo rooted rest [] else cleanGo rooted rest [".."]
      | a :: tl =>
        if a = ".." then cleanGo rooted rest (c :: a :: tl) else cleanGo rooted rest tl
    else cleanGo rooted rest (c :: acc)

/-- Go `filepath.Clean` (unix separators). -/
def pathClean (p : String) : String :=
  if p = "" then "."
  else
    let rooted := strLeadsWithSlash p
    let joined := String.intercalate "/" (cleanGo rooted (splitOnSlash p) [])
    if rooted then "/" ++ joined
    else if joined = "" then "." else joined

/-- Go `filepath.Join(a, b)`: empty elements are skipped, the rest joined and cleaned. -/
def pathJoin (a b : String) : String :=
  if a = "" then
    if b = "" then "" else pathClean b
  else if b = "" then pathClean a
  else pathClean (a ++ "/" ++ b)

/-- Go `filepath.Base`. -/
def pathBase (p : String) : String :=
  if p = "" then "."
  else
    match ((splitOnSlash p).filter (fun c => c != "")).getLast? with
    | some x => x
    | none => if strLeadsWithSlash p then "/" else "."

/-- Go `filepath.Dir`. -/
def pathDir (p : String) : String :=
  let comps := splitOnSlash p
  pathClean (String.intercalate "/" comps.dropLast ++ (if comps.length ≥ 2 then "/" else ""))

/-- Function `getFileName` of main.go: base name without the extension. -/
def getFileName (path : String) : String :=
  trimSuffix (pathBase path) (pathExt path)

/-- The path idiom repeated throughout `resolveLinks` and `render`:
`ext := filepath.Ext(p); p = strings.TrimSuffix(p, ext); p = filepath.Join(p, seg); p += ext`. -/
def nestPath (p seg : String) : String :=
  pathJoin (trimSuffix p (pathExt p)) seg ++ pathExt p

/-- Go `strings.Join(parts, ".")`. -/
def joinDot : List String → String
  | [] => ""
  | [x] => x
  | x :: xs => x ++ "." ++ joinDot xs

/-! ## Data model: `d2target.Shape` / `d2target.Diagram` (fields used by main.go) -/

structure Shape where
  posX : Int
  posY : Int
  width : Int
  height : Int
  strokeWidth : Int
  link : String
deriving Repr, DecidableEq

/-- A board: `Name`, `IsFolderOnly`, `Shapes`, `Root.Fill`, and the three child
categories `Layers`, `Scenarios`, `Steps`. -/
inductive Diagram : Type where
  | mk (name : String) (isFolderOnly : Bool) (shapes : List Shape) (rootFill : String)
       (layers scenarios steps : List Diagram) : Diagram
deriving Repr

def Diagram.name : Diagram → String
  | .mk n _ _ _ _ _ _ => n

def Diagram.isFolderOnly : Diagram → Bool
  | .mk _ fo _ _ _ _ _ => fo

def Diagram.shapes : Diagram → List Shape
  | .mk _ _ sh _ _ _ _ => sh

def Diagram.rootFill : Diagram → String
  | .mk _ _ _ f _ _ _ => f

def Diagram.layers : Diagram → List Diagram
  | .mk _ _ _ _ ls _ _ => ls

def Diagram.scenarios : Diagram → List Diagram
  | .mk _ _ _ _ _ ss _ => ss

def Diagram.steps : Diagram → List Diagram
  | .mk _ _ _ _ _ _ ts => ts

/-! ## Go maps as association lists with distinct keys -/

/-- Assignment `m[k] = v` on a Go map: overwrite the entry if the key is present, else add it.
An association list built only through `mapSet` has pairwise-distinct keys, so it
models a Go map faithfully (lookup, length, key set). -/
def mapSet {α : Type} (m : List (String × α)) (k : String) (v : α) : List (String × α) :=
  if m.any (fun p => p.1 == k) then m.map (fun p => if p.1 == k then (k, v) else p)
  else m ++ [(k, v)]

/-! ## The shared output-path synthesis of `resolveLinks` and `render`

Both functions start with the same four path computations (main.go:423-458 and
main.go:516-557); the Go code repeats the blocks verbatim, so they are factored
into named definitions here. -/

/-- main.go:423-428 / 516-521: a named board nests one directory level under a
subdirectory named after it, keeping the extension on the leaf. -/
def namedOutputPath (outputPath name : String) : String :=
  if name ≠ "" then nestPath outputPath name else outputPath

/-- main.go:430-436 / 523-535: a board with any child category writes its own
content to `<dir>/index.<ext>`. -/
def boardOutputPathOf (outputPath : String) (layers scenarios steps : List Diagram) : String :=
  if layers.length > 0 ∨ scenarios.length > 0 ∨ steps.length > 0 then
    nestPath outputPath "index"
  else outputPath

/-- main.go:438-458 / 537-557: the child base output path of one category gets
the category-named subdirectory exactly when at least one of the *other* two
categories is non-empty. -/
def categoryOutputPath (outputPath category : String) (otherA otherB : List Diagram) : String :=
  if otherA.length > 0 ∨ otherB.length > 0 then nestPath outputPath category else outputPath

/-! ## Link Resolver: `resolveLinks` (main.go:422-491)

The Go function returns `(map[string]string, error)`; we return the pair
`(map, Option error-message)`.  Merging a child map with
`for k, v := range m { linkToOutput[k] = v }` is modelled as a left fold of
`mapSet` over the child's entries: Go's map iteration order is unspecified, but
since a map's keys are distinct the resulting map is the same function. -/

mutual

def resolveLinks (currDiagramPath outputPath : String) :
    Diagram → List (String × String) × Option String
  | .mk name _ _ _ layers scenarios steps =>
    let outputPath := namedOutputPath outputPath name
    let boardOutputPath := boardOutputPathOf outputPath layers scenarios steps
    let layersOutputPath := categoryOutputPath outputPath "layers" scenarios steps
    let scenariosOutputPath := categoryOutputPath outputPath "scenarios" layers steps
    let stepsOutputPath := categoryOutputPath outputPath "steps" layers scenarios
    match resolveLinksChildren currDiagramPath "layers" layersOutputPath layers
        [(currDiagramPath, boardOutputPath)] with
    | (_, some e) => ([], some e)
    | (m1, none) =>
      match resolveLinksChildren currDiagramPath "scenarios" scenariosOutputPath scenarios m1 with
      | (_, some e) => ([], some e)
      | (m2, none) =>
        match resolveLinksChildren currDiagramPath "steps" stepsOutputPath steps m2 with
        | (_, some e) => ([], some e)
        | (m3, none) => (m3, none)

/-- One of the three child loops of `resolveLinks`: recurse with the link
identifier `strings.Join([]string{currDiagramPath, category, dl.Name}, ".")` and
merge the child's map into the accumulator, propagating any error. -/
def resolveLinksChildren (currDiagramPath category childOutputPath : String) :
    List Diagram → List (String × String) → List (String × String) × Option String
  | [], acc => (acc, none)
  | dl :: rest, acc =>
    match resolveLinks (joinDot [currDiagramPath, category, dl.name])
        childOutputPath dl with
    | (_, some e) => ([], some e)
    | (m, none) =>
      resolveLinksChildren currDiagramPath category childOutputPath rest
        (m.foldl (fun a p => mapSet a p.1 p.2) acc)

end

/-! ## Pagination Indexer: `buildBoardIdToIndex` (main.go:964-985)

Go appends `"layers"` / `"scenarios"` / `"steps"` to the shared `newPath` slice
before each recursive call; because the value written into the backing array is
the same constant for every iteration of a loop and keys are joined into fresh
strings, this is equivalent to passing `newPath ++ [category]` by value. -/

mutual

def buildBoardIdToIndex :
    Diagram → Option (List (String × Nat)) → List String → List (String × Nat)
  | .mk name _ _ _ layers scenarios steps, dictionary, path =>
    let newPath0 := path ++ [name]
    let dict0 := match dictionary with | none => ([] : List (String × Nat)) | some d => d
    let newPath :=
      match dictionary with
      | none => match newPath0 with | [] => [] | _ :: tl => "root" :: tl
      | some _ => newPath0
    let key := joinDot newPath
    let dict1 := mapSet dict0 key dict0.length
    let dict2 := buildBoardIdToIndexList layers dict1 (newPath ++ ["layers"])
    let dict3 := buildBoardIdToIndexList scenarios dict2 (newPath ++ ["scenarios"])
    buildBoardIdToIndexList steps dict3 (newPath ++ ["steps"])

def buildBoardIdToIndexList :
    List Diagram → List (String × Nat) → List String → List (String × Nat)
  | [], dict, _ => dict
  | dl :: rest, dict, path =>
    buildBoardIdToIndexList rest (buildBoardIdToIndex dl (some dict) path) path

end

/-! ## Link rewriting: `relink` (main.go:493-513)

The Go function mutates `d.Shapes[i].Link` in place; we return the updated tree.
The inner `for k, v := range linkToOutput { if shape.Link == k { ...; break } }`
finds the unique entry whose key equals the link (map keys are distinct), i.e. a
lookup. -/

def relinkShape (linkToOutput : List (String × String)) (shape : Shape) : Shape :=
  if shape.link ≠ "" then
    match linkToOutput.lookup shape.link with
    | some v => { shape with link := v }
    | none => shape
  else shape

mutual

def relink (linkToOutput : List (String × String)) : Diagram → Diagram
  | .mk name isFolderOnly shapes rootFill layers scenarios steps =>
    Diagram.mk name isFolderOnly (shapes.map (relinkShape linkToOutput)) rootFill
      (relinkList linkToOutput layers) (relinkList linkToOutput scenarios)
      (relinkList linkToOutput steps)

def relinkList (linkToOutput : List (String × String)) : List Diagram → List Diagram
  | [] => []
  | d :: ds => relink linkToOutput d :: relinkList linkToOutput ds

end

/-- The link stage of `compile`'s default branch (main.go:386-393): when no
animation interval is requested, resolve links and rewrite the tree; otherwise
leave the tree untouched. -/
def compileResolveStage (animateInterval : Int) (outputPath : String) (diagram : Diagram) :
    Diagram × Option String :=
  if animateInterval ≤ 0 then
    match resolveLinks "root" outputPath diagram with
    | (_, some e) => (diagram, some e)
    | (linkToOutput, none) => (relink linkToOutput diagram, none)
  else (diagram, none)

/-! ## Effect model: bytes, the filesystem, and external collaborators

Byte slices are `List Nat`; the filesystem is an association list from absolute
path to contents, written through `mapSet` (a rewrite of an existing file
overwrites it).  Every external collaborator of §6 is a field of `Collab`;
Go's `(T, error)` returns become `T × Option String`. -/

abbrev Bytes := List Nat

abbrev Disk := List (String × Bytes)

/-- Is `p` the path `dir` itself or strictly below it? -/
def underDir (dir p : String) : Bool :=
  p == dir || decide ((dir ++ "/").data <+: p.data)

/-- Go `os.RemoveAll(dir)`: delete `dir` and everything below it. -/
def removeAll (disk : Disk) (dir : String) : Disk :=
  disk.filter (fun e => !underDir dir e.1)

/-- Go `multierr.Combine` restricted to two operands (nil errors are dropped). -/
def multierrCombine : Option String → Option String → Option String
  | none, e => e
  | some a, none => some a
  | some a, some b => some (a ++ "; " ++ b)

/-- Trailing `'\n'` appended to vector output (main.go:648-650). -/
def withTrailingNewline (out : Bytes) : Bytes :=
  if out.length > 0 ∧ out.getLast? ≠ some 10 then out ++ [10] else out

/-- The render options that influence control flow in main.go: `MasterID` is
empty for ordinary renders and set from the root board's hash for animated
renders (it suppresses per-board file writes).  The purely forwarded options
(pad, sketch, center, theme ids) live inside the collaborator oracles. -/
structure RenderOpts where
  masterID : String
deriving Repr, DecidableEq

/-- External collaborators (§6).  Each field is one boundary function; oracles
are arbitrary but fixed for a compile invocation. -/
structure Collab where
  /-- Renderer `d2svg.Render(diagram, opts)`; the `Bool` is `SetDimensions`. -/
  d2svgRender : Diagram → Bool → Bytes × Option String
  /-- Plugin `plugin.PostProcess`. -/
  postProcess : Bytes → Bytes × Option String
  /-- Bundler `imgbundler.BundleLocal`. -/
  bundleLocal : Bytes → Bytes × Option String
  /-- Bundler `imgbundler.BundleRemote`. -/
  bundleRemote : Bytes → Bytes × Option String
  /-- Appendix injector `appendix.Append(diagram, ruler, svg)`. -/
  appendixAppend : Diagram → Bytes → Bytes
  /-- Rasterizer `png.ConvertSVG`. -/
  convertSVG : Bytes → Bytes × Option String
  /-- Metadata step `png.AddExif`. -/
  addExif : Bytes → Bytes × Option String
  /-- Go `os.MkdirAll(dir, 0755)`. -/
  mkdirAll : String → Option String
  /-- Writer `ms.WritePath(path, bytes)`; `none` means the write succeeded. -/
  writePath : String → Bytes → Option String
  /-- Viewbox step `appendix.FindViewboxSlice` plus the two `strconv.ParseFloat` calls;
  `none` means both coordinates parsed. -/
  viewboxParse : Bytes → Option String
  /-- Document writer `pdf.AddPDFPage(pngImg, boardPath, themeID, rootFill, shapes, pad, x, y, pageMap)`. -/
  pdfAddPage : Bytes → List String → String → List Shape → List (String × Nat) → Option String
  /-- Document writer `pdf.Export(outputPath)`. -/
  pdfExport : String → Option String
  /-- Slide writer `presentation.AddSlide(pngImg, boardPath)`. -/
  pptxAddSlide : Bytes → List String → Option String
  /-- Slide writer `p.SaveTo(outputPath)`. -/
  pptxSave : String → Option String
  /-- Whether `d2parser.ParseKey(link)` succeeded and `key.Path[0]` unboxes to `"root"`. -/
  parseKeyRoot : String → Bool
  /-- Composer `d2animate.Wrap(diagram, boards, opts, interval)`. -/
  animateWrap : Diagram → List Bytes → Int → Bytes × Option String
  /-- Hash `diagram.HashID()`. -/
  diagramHashID : Diagram → String × Option String

/-! ## `_render` (main.go:599-667): single-board render + post-process

Inside the `toPNG` branch Go shadows `svg` with the appendix-injected copy:
error returns inside that branch surface the inner value, while the final
success return and the write-failure returns surface the outer one. -/

/-- Tail of `_render` (main.go:653-666): write the bytes unless this is a
sub-render of an animation, then surface any aggregated bundling error. -/
def renderFinish (c : Collab) (opts : RenderOpts) (outputPath : String)
    (svg out : Bytes) (bundleErr : Option String) (disk : Disk) :
    Disk × Bytes × Option String :=
  if opts.masterID = "" then
    match c.mkdirAll (pathDir outputPath) with
    | some e => (disk, svg, some e)
    | none =>
      match c.writePath outputPath out with
      | some e => (disk, svg, some e)
      | none =>
        match bundleErr with
        | some e => (mapSet disk outputPath out, svg, some e)
        | none => (mapSet disk outputPath out, svg, none)
  else
    match bundleErr with
    | some e => (disk, svg, some e)
    | none => (disk, svg, none)

def underscoreRender (c : Collab) (opts : RenderOpts) (outputPath : String)
    (bundle forceAppendix : Bool) (diagram : Diagram) (disk : Disk) :
    Disk × Bytes × Option String :=
  let toPNG := pathExt outputPath = ".png"
  match c.d2svgRender diagram toPNG with
  | (_, some e) => (disk, [], some e)
  | (svg0, none) =>
    match c.postProcess svg0 with
    | (svg1, some e) => (disk, svg1, some e)
    | (svg1, none) =>
      let lr := c.bundleLocal svg1
      let br := if bundle then
          let r := c.bundleRemote lr.1
          (r.1, multierrCombine lr.2 r.2)
        else (lr.1, lr.2)
      let svg4 := if forceAppendix ∧ ¬toPNG then c.appendixAppend diagram br.1 else br.1
      if toPNG then
        let svgIn0 := c.appendixAppend diagram svg4
        let ir := if ¬bundle then
            let r := c.bundleRemote svgIn0
            (r.1, multierrCombine br.2 r.2)
          else (svgIn0, br.2)
        match c.convertSVG ir.1 with
        | (_, some e) => (disk, ir.1, some e)
        | (out0, none) =>
          match c.addExif out0 with
          | (_, some e) => (disk, ir.1, some e)
          | (out, none) => renderFinish c opts outputPath svg4 out ir.2 disk
      else
        renderFinish c opts outputPath svg4 (withTrailingNewline svg4) br.2 disk

/-! ## Hierarchical Renderer: `render` (main.go:515-597)

The result is `(disk, trace, boards, err)`: `trace` records every `_render`
invocation in order as `(boardOutputPath, returned bytes)`; `boards` is the
Go return value (`nil` is `[]`).  On a child error Go returns `nil, err`; on an
error in the board's own `_render` it returns the children's boards with the
error (main.go:584-586); a folder-only board returns `nil, nil`. -/

mutual

def render (c : Collab) (opts : RenderOpts) (outputPath : String)
    (bundle forceAppendix : Bool) (diagram : Diagram) (disk : Disk) :
    Disk × List (String × Bytes) × List Bytes × Option String :=
  match diagram with
  | .mk name isFolderOnly _ _ layers scenarios steps =>
    let outputPath := namedOutputPath outputPath name
    let hasChildren := layers.length > 0 ∨ scenarios.length > 0 ∨ steps.length > 0
    if hasChildren ∧ outputPath = "-" then
      (disk, [], [], some "multiboard output cannot be written to stdout")
    else
      -- Boards with sub-boards become self-contained folders: the folder is
      -- deleted before anything is written under it (main.go:529-534).
      let disk := if hasChildren then removeAll disk (trimSuffix outputPath (pathExt outputPath))
        else disk
      let boardOutputPath := boardOutputPathOf outputPath layers scenarios steps
      let layersOutputPath := categoryOutputPath outputPath "layers" scenarios steps
      let scenariosOutputPath := categoryOutputPath outputPath "scenarios" layers steps
      let stepsOutputPath := categoryOutputPath outputPath "steps" layers scenarios
      match renderList c opts layersOutputPath bundle forceAppendix layers disk with
      | (disk, tr1, _, some e) => (disk, tr1, [], some e)
      | (disk, tr1, bs1, none) =>
        match renderList c opts scenariosOutputPath bundle forceAppendix scenarios disk with
        | (disk, tr2, _, some e) => (disk, tr1 ++ tr2, [], some e)
        | (disk, tr2, bs2, none) =>
          match renderList c opts stepsOutputPath bundle forceAppendix steps disk with
          | (disk, tr3, _, some e) => (disk, tr1 ++ tr2 ++ tr3, [], some e)
          | (disk, tr3, bs3, none) =>
            let trace := tr1 ++ tr2 ++ tr3
            let boards := bs1 ++ bs2 ++ bs3
            if ¬isFolderOnly then
              match underscoreRender c opts boardOutputPath bundle forceAppendix diagram disk with
              | (disk, out, some e) => (disk, trace ++ [(boardOutputPath, out)], boards, some e)
              | (disk, out, none) =>
                (disk, trace ++ [(boardOutputPath, out)], out :: boards, none)
            else
              (disk, trace, [], none)

def renderList (c : Collab) (opts : RenderOpts) (outputPath : String)
    (bundle forceAppendix : Bool) : List Diagram → Disk →
    Disk × List (String × Bytes) × List Bytes × Option String
  | [], disk => (disk, [], [], none)
  | dl :: rest, disk =>
    match render c opts outputPath bundle forceAppendix dl disk with
    | (disk, tr, _, some e) => (disk, tr, [], some e)
    | (disk, tr, bs, none) =>
      match renderList c opts outputPath bundle forceAppendix rest disk with
      | (disk, tr', _, some e) => (disk, tr ++ tr', [], some e)
      | (disk, tr', bs', none) => (disk, tr ++ tr', bs ++ bs', none)

end

/-! ## `compile`, default branch (main.go:300-340, 384-419) and `Run`'s report -/

/-- Lines 384-419 of `compile`: the SVG/animated output stage, after
`renderOpts.MasterID` has been set. -/
def compileDefaultBody (c : Collab) (opts : RenderOpts) (animateInterval : Int)
    (outputPath : String) (bundle forceAppendix : Bool) (diagram : Diagram) (disk : Disk) :
    Disk × Bytes × Bool × Option String :=
  match compileResolveStage animateInterval outputPath diagram with
  | (_, some e) => (disk, [], false, some e)
  | (diagram, none) =>
    match render c opts outputPath bundle forceAppendix diagram disk with
    | (disk, _, _, some e) => (disk, [], false, some e)
    | (disk, _, boards, none) =>
      match boards with
      | [] => (disk, [], true, none)
      | b0 :: _ =>
        if animateInterval > 0 then
          match c.animateWrap diagram boards animateInterval with
          | (_, some e) => (disk, [], false, some e)
          | (out, none) =>
            match c.mkdirAll (pathDir outputPath) with
            | some e => (disk, [], false, some e)
            | none =>
              match c.writePath outputPath out with
              | some e => (disk, [], false, some e)
              | none => (mapSet disk outputPath out, out, true, none)
        else (disk, b0, true, none)

/-- Function `compile` for a non-`.pdf`/`.pptx` output path: an animated render first
derives `renderOpts.MasterID` from the root board's hash (main.go:334-340),
then the output stage runs. -/
def compileDefault (c : Collab) (animateInterval : Int) (outputPath : String)
    (bundle forceAppendix : Bool) (diagram : Diagram) (disk : Disk) :
    Disk × Bytes × Bool × Option String :=
  if animateInterval > 0 then
    match c.diagramHashID diagram with
    | (_, some e) => (disk, [], false, some e)
    | (mid, none) =>
      compileDefaultBody c { masterID := mid } animateInterval outputPath bundle forceAppendix
        diagram disk
  else
    compileDefaultBody c { masterID := "" } animateInterval outputPath bundle forceAppendix
      diagram disk

/-- Function `Run`'s error report (main.go:290-296): the `written` flag chooses between
the "partial render written" message and the plain one. -/
def runErrorMessage (written : Bool) (e : String) : String :=
  if written then "failed to fully compile (partial render written): " ++ e
  else "failed to compile: " ++ e

/-! ## Paginated Document Builders: `renderPDF` (main.go:669-760) and
`renderPPTX` (main.go:762-873)

The shared mutable document handle is modelled by an event trace: `addPage` /
`addSlide` record a successful append to the shared document, `slideLink` a
hyperlink attached to the current slide, `exportDoc` reaching `pdf.Export`, and
`saveDoc` reaching `p.SaveTo` in `compile`'s `.pptx` branch. -/

/-- Target attached to a shape link on a slide (main.go:842-849): an external
URL, an internal one-based slide jump, or nothing when an internal-looking link
is missing from the index map. -/
inductive LinkTarget : Type where
  | external (url : String)
  | slide (index : Nat)
  | noTarget
deriving Repr, DecidableEq

inductive DocEvent : Type where
  | addPage (boardPath : List String)
  | exportDoc (path : String)
  | addSlide (boardPath : List String)
  | slideLink (target : LinkTarget)
  | saveDoc (path : String)
deriving Repr, DecidableEq

/-- Link resolution of the slide deck builder (main.go:842-849). -/
def pptxLinkTarget (c : Collab) (boardIdToIndex : List (String × Nat))
    (link : String) : LinkTarget :=
  if ¬c.parseKeyRoot link then .external link
  else
    match boardIdToIndex.lookup link with
    | some pageNum => .slide (pageNum + 1)
    | none => .noTarget

/-- The per-board page step of `renderPDF` (main.go:684-731): render the board
(with its background fill made transparent, main.go:685-688), post-process,
bundle both image channels — here an aggregate bundling error *does* abort —
inject the appendix, rasterize, parse the viewbox origin, and append the page
to the shared document. -/
def renderPDFPage (c : Collab) (diagram : Diagram) (currBoardPath : List String)
    (pageMap : List (String × Nat)) : List DocEvent × Bytes × Option String :=
  match diagram with
  | .mk name isFolderOnly shapes rootFill layers scenarios steps =>
    if ¬isFolderOnly then
      let d' := Diagram.mk name isFolderOnly shapes "transparent" layers scenarios steps
      match c.d2svgRender d' true with
      | (_, some e) => ([], [], some e)
      | (svg0, none) =>
        match c.postProcess svg0 with
        | (svg1, some e) => ([], svg1, some e)
        | (svg1, none) =>
          let lr := c.bundleLocal svg1
          let rr := c.bundleRemote lr.1
          match multierrCombine lr.2 rr.2 with
          | some e => ([], rr.1, some e)
          | none =>
            let svg2 := c.appendixAppend d' rr.1
            match c.convertSVG svg2 with
            | (_, some e) => ([], svg2, some e)
            | (pngImg, none) =>
              match c.viewboxParse svg2 with
              | some e => ([], svg2, some e)
              | none =>
                match c.pdfAddPage pngImg currBoardPath rootFill shapes pageMap with
                | some e => ([], svg2, some e)
                | none => ([DocEvent.addPage currBoardPath], svg2, none)
    else ([], [], none)

mutual

def renderPDF (c : Collab) (outputPath : String) (diagram : Diagram) (pdfIsNil : Bool)
    (boardPath : List String) (pageMap : List (String × Nat)) :
    List DocEvent × Bytes × Option String :=
  match diagram with
  | .mk name isFolderOnly shapes rootFill layers scenarios steps =>
    let isRoot := pdfIsNil
    let currBoardPath := boardPath ++ [if name = "" then getFileName outputPath else name]
    -- Own page first (root board is page 0), unless folder-only.
    match renderPDFPage c (Diagram.mk name isFolderOnly shapes rootFill layers scenarios steps)
        currBoardPath pageMap with
    | (ev, b, some e) => (ev, b, some e)
    | (ev0, svg, none) =>
      match renderPDFList c layers currBoardPath pageMap with
      | (ev1, some e) => (ev0 ++ ev1, [], some e)
      | (ev1, none) =>
        match renderPDFList c scenarios currBoardPath pageMap with
        | (ev2, some e) => (ev0 ++ ev1 ++ ev2, [], some e)
        | (ev2, none) =>
          match renderPDFList c steps currBoardPath pageMap with
          | (ev3, some e) => (ev0 ++ ev1 ++ ev2 ++ ev3, [], some e)
          | (ev3, none) =>
            if isRoot then
              match c.pdfExport outputPath with
              | some e => (ev0 ++ ev1 ++ ev2 ++ ev3 ++ [DocEvent.exportDoc outputPath], [], some e)
              | none => (ev0 ++ ev1 ++ ev2 ++ ev3 ++ [DocEvent.exportDoc outputPath], svg, none)
            else (ev0 ++ ev1 ++ ev2 ++ ev3, svg, none)

/-- One child loop of `renderPDF`: recursive calls receive an empty output path
and the (now non-nil) shared document handle. -/
def renderPDFList (c : Collab) :
    List Diagram → List String → List (String × Nat) → List DocEvent × Option String
  | [], _, _ => ([], none)
  | dl :: rest, boardPath, pageMap =>
    match renderPDF c "" dl false boardPath pageMap with
    | (ev, _, some e) => (ev, some e)
    | (ev, _, none) =>
      match renderPDFList c rest boardPath pageMap with
      | (ev', e?) => (ev ++ ev', e?)

end

/-- The per-board slide step of `renderPPTX` (main.go:772-851): like the PDF
page step, then add the slide with the board path as title and attach one link
per linked shape, resolved against the slide index map. -/
def renderPPTXSlide (c : Collab) (diagram : Diagram) (currBoardPath : List String)
    (boardIdToIndex : List (String × Nat)) : List DocEvent × Bytes × Option String :=
  match diagram with
  | .mk name isFolderOnly shapes _ layers scenarios steps =>
    if ¬isFolderOnly then
      let d' := Diagram.mk name isFolderOnly shapes "transparent" layers scenarios steps
      match c.d2svgRender d' true with
      | (_, some e) => ([], [], some e)
      | (svg0, none) =>
        match c.postProcess svg0 with
        | (_, some e) => ([], [], some e)
        | (svg1, none) =>
          let lr := c.bundleLocal svg1
          let rr := c.bundleRemote lr.1
          match multierrCombine lr.2 rr.2 with
          | some e => ([], [], some e)
          | none =>
            let svg2 := c.appendixAppend d' rr.1
            match c.convertSVG svg2 with
            | (_, some e) => ([], [], some e)
            | (pngImg, none) =>
              match c.pptxAddSlide pngImg currBoardPath with
              | some e => ([], [], some e)
              | none =>
                match c.viewboxParse svg2 with
                | some e => ([DocEvent.addSlide currBoardPath], [], some e)
                | none =>
                  let linkEvents := (shapes.filter (fun s => s.link ≠ "")).map
                    (fun s => DocEvent.slideLink (pptxLinkTarget c boardIdToIndex s.link))
                  (DocEvent.addSlide currBoardPath :: linkEvents, svg2, none)
    else ([], [], none)

mutual

def renderPPTX (c : Collab) (outputPath : String) (diagram : Diagram)
    (boardPath : List String) (boardIdToIndex : List (String × Nat)) :
    List DocEvent × Bytes × Option String :=
  match diagram with
  | .mk name isFolderOnly shapes rootFill layers scenarios steps =>
    let currBoardPath := boardPath ++ [if name = "" then getFileName outputPath else name]
    match renderPPTXSlide c (Diagram.mk name isFolderOnly shapes rootFill layers scenarios steps)
        currBoardPath boardIdToIndex with
    | (ev, b, some e) => (ev, b, some e)
    | (ev0, svg, none) =>
      match renderPPTXList c layers currBoardPath boardIdToIndex with
      | (ev1, some e) => (ev0 ++ ev1, [], some e)
      | (ev1, none) =>
        match renderPPTXList c scenarios currBoardPath boardIdToIndex with
        | (ev2, some e) => (ev0 ++ ev1 ++ ev2, [], some e)
        | (ev2, none) =>
          match renderPPTXList c steps currBoardPath boardIdToIndex with
          | (ev3, some e) => (ev0 ++ ev1 ++ ev2 ++ ev3, [], some e)
          | (ev3, none) => (ev0 ++ ev1 ++ ev2 ++ ev3, svg, none)

def renderPPTXList (c : Collab) :
    List Diagram → List String → List (String × Nat) → List DocEvent × Option String
  | [], _, _ => ([], none)
  | dl :: rest, boardPath, boardIdToIndex =>
    match renderPPTX c "" dl boardPath boardIdToIndex with
    | (ev, _, some e) => (ev, some e)
    | (ev, _, none) =>
      match renderPPTXList c rest boardPath boardIdToIndex with
      | (ev', e?) => (ev ++ ev', e?)

end

/-- Function `compile`'s `.pdf` branch (main.go:353-361): build the page index, run the
paginated render (which exports from its root call), and report success. -/
def compilePDFBranch (c : Collab) (outputPath : String) (diagram : Diagram) :
    List DocEvent × Bytes × Bool × Option String :=
  let pageMap := buildBoardIdToIndex diagram none []
  match renderPDF c outputPath diagram true [] pageMap with
  | (ev, pdfBytes, some e) => (ev, pdfBytes, false, some e)
  | (ev, pdfBytes, none) => (ev, pdfBytes, true, none)

/-- Function `compile`'s `.pptx` branch (main.go:362-383): build the slide index, run the
slide-deck render, and only on overall success save the presentation. -/
def compilePPTXBranch (c : Collab) (outputPath : String) (diagram : Diagram) :
    List DocEvent × Bytes × Bool × Option String :=
  let boardIdToIndex := buildBoardIdToIndex diagram none []
  match renderPPTX c outputPath diagram [] boardIdToIndex with
  | (ev, _, some e) => (ev, [], false, some e)
  | (ev, svg, none) =>
    match c.pptxSave outputPath with
    | some e => (ev ++ [DocEvent.saveDoc outputPath], [], false, some e)
    | none => (ev ++ [DocEvent.saveDoc outputPath], svg, true, none)

/-! ## Specification-side observations

`boardIds curr d` is the list of link-identifier-namespace strings of all boards
of `d`, in the fixed Layers/Scenarios/Steps depth-first traversal order, when
the tree root is addressed as `curr` — the dot-joined
`root[.<category>.<name>]*` scheme of §3. -/

mutual

def boardIds (curr : String) : Diagram → List String
  | .mk _ _ _ _ layers scenarios steps =>
    curr :: (boardIdsList curr "layers" layers ++ boardIdsList curr "scenarios" scenarios ++
      boardIdsList curr "steps" steps)

def boardIdsList (curr category : String) : List Diagram → List String
  | [] => []
  | d :: ds =>
    boardIds (joinDot [curr, category, d.name]) d ++ boardIdsList curr category ds

end

mutual

def boardCount : Diagram → Nat
  | .mk _ _ _ _ layers scenarios steps =>
    1 + boardCountList layers + boardCountList scenarios + boardCountList steps

def boardCountList : List Diagram → Nat
  | [] => 0
  | d :: ds => boardCount d + boardCountList ds

end

/-- Spec-side enumeration: pair each key of `ks` with consecutive integers
starting at `n` — the shape a dense, gap-free pagination index must have. -/
def enumFrom (n : Nat) : List String → List (String × Nat)
  | [] => []
  | k :: ks => (k, n) :: enumFrom (n + 1) ks

/-- Spec-side description of link rewriting (§3 ownership, §8 round-trip): a
shape `Link` byte-equal to a key of the resolved map becomes exactly that key's
value, any other `Link` stays byte-identical, and no other field changes. -/
def rewriteShapeSpec (m : List (String × String)) (s : Shape) : Shape :=
  { s with link := (m.lookup s.link).getD s.link }

mutual

def rewriteTreeSpec (m : List (String × String)) : Diagram → Diagram
  | .mk name isFolderOnly shapes rootFill layers scenarios steps =>
    Diagram.mk name isFolderOnly (shapes.map (rewriteShapeSpec m)) rootFill
      (rewriteTreeSpecList m layers) (rewriteTreeSpecList m scenarios)
      (rewriteTreeSpecList m steps)

def rewriteTreeSpecList (m : List (String × String)) : List Diagram → List Diagram
  | [] => []
  | d :: ds => rewriteTreeSpec m d :: rewriteTreeSpecList m ds

end

/-! ## Concrete fixtures for witnesses and counterexamples -/

/-- The §8 example tree: an unnamed root with a single layer `"details"`. -/
def detailsBoard : Diagram := .mk "details" false [] "" [] [] []

def appBoard : Diagram := .mk "" false [] "" [detailsBoard] [] []

/-- Two sibling layers carrying the same name, hence the same link identifier. -/
def dupBoard : Diagram :=
  .mk "" false [] "" [.mk "a" false [] "" [] [] [], .mk "a" false [] "" [] [] []] [] []

/-- A folder-only root grouping one renderable layer. -/
def folderBoard : Diagram := .mk "" true [] "" [.mk "a" false [] "" [] [] []] [] []

/-- Three renderable sibling layers under a renderable root. -/
def threeBoard : Diagram :=
  .mk "" false [] "" [.mk "a" false [] "" [] [] [], .mk "b" false [] "" [] [] [],
    .mk "c" false [] "" [] [] []] [] []

def linkedShape : Shape :=
  { posX := 0, posY := 0, width := 1, height := 1, strokeWidth := 1, link := "root.layers.details" }

def urlShape : Shape :=
  { posX := 0, posY := 0, width := 1, height := 1, strokeWidth := 1, link := "https://d2lang.com" }

def linkedBoard : Diagram := .mk "" false [linkedShape, urlShape] "" [detailsBoard] [] []

/-- Collaborators that always succeed. -/
def okCollab : Collab where
  d2svgRender := fun _ _ => ([1], none)
  postProcess := fun b => (b, none)
  bundleLocal := fun b => (b, none)
  bundleRemote := fun b => (b, none)
  appendixAppend := fun _ b => b
  convertSVG := fun b => (b, none)
  addExif := fun b => (b, none)
  mkdirAll := fun _ => none
  writePath := fun _ _ => none
  viewboxParse := fun _ => none
  pdfAddPage := fun _ _ _ _ _ => none
  pdfExport := fun _ => none
  pptxAddSlide := fun _ _ => none
  pptxSave := fun _ => none
  parseKeyRoot := fun _ => false
  animateWrap := fun _ _ _ => ([2], none)
  diagramHashID := fun _ => ("h", none)

/-- Collaborators where the vector renderer fails exactly on the board named
`"b"`. -/
def failBCollab : Collab :=
  { okCollab with d2svgRender := fun d _ => if d.name = "b" then ([], some "render failed")
      else ([1], none) }

/-- Collaborators where both image bundlers fail. -/
def failBundleCollab : Collab :=
  { okCollab with
    bundleLocal := fun b => (b ++ [7], some "local bundling failed")
    bundleRemote := fun b => (b ++ [8], some "remote bundling failed") }

end D2


namespace D2

/-! ### Infrastructure: induction on the board tree -/

theorem sizeOf_lt_of_mem_cat (d : Diagram) (nm : String) (fo : Bool) (sh : List Shape)
    (f : String) (ls ss ts : List Diagram)
    (h : d ∈ ls ∨ d ∈ ss ∨ d ∈ ts) :
    sizeOf d < sizeOf (Diagram.mk nm fo sh f ls ss ts) := by
  simp only [Diagram.mk.sizeOf_spec]
  rcases h with h | h | h <;> have := List.sizeOf_lt_of_mem h <;> omega

theorem diagram_ind (P : Diagram → Prop)
    (h : ∀ nm fo sh f ls ss ts,
        (∀ d ∈ ls, P d) → (∀ d ∈ ss, P d) → (∀ d ∈ ts, P d) →
        P (.mk nm fo sh f ls ss ts)) :
    ∀ d, P d := by
  have key : ∀ n, ∀ d : Diagram, sizeOf d < n → P d := by
    intro n
    induction n with
    | zero => intro d hd; omega
    | succ n ih =>
      intro d hd
      cases d with
      | mk nm fo sh f ls ss ts =>
        refine h nm fo sh f ls ss ts ?_ ?_ ?_ <;> intro c hc
        · exact ih c (by have := sizeOf_lt_of_mem_cat c nm fo sh f ls ss ts (Or.inl hc); omega)
        · exact ih c (by
            have := sizeOf_lt_of_mem_cat c nm fo sh f ls ss ts (Or.inr (Or.inl hc)); omega)
        · exact ih c (by
            have := sizeOf_lt_of_mem_cat c nm fo sh f ls ss ts (Or.inr (Or.inr hc)); omega)
  intro d
  exact key (sizeOf d + 1) d (by omega)

/-! ### Go-map lemmas -/

theorem mem_map_fst_mapSet {α : Type} (m : List (String × α)) (k : String) (v : α)
    (k' : String) :
    k' ∈ (mapSet m k v).map Prod.fst ↔ k' ∈ m.map Prod.fst ∨ k' = k := by
  unfold mapSet
  by_cases h : m.any (fun p => p.1 == k)
  · have hk : k ∈ m.map Prod.fst := by
      rcases List.any_eq_true.mp h with ⟨p, hp, he⟩
      exact List.mem_map.mpr ⟨p, hp, by simpa using he⟩
    have hmm : (m.map fun p => if p.1 == k then (k, v) else p).map Prod.fst = m.map Prod.fst := by
      rw [List.map_map]
      refine List.map_congr_left ?_
      intro p _
      by_cases hpk : p.1 = k
      · simp [hpk]
      · simp [hpk]
    simp only [h, if_true, hmm]
    constructor
    · exact Or.inl
    · rintro (hh | rfl)
      · exact hh
      · exact hk
  · rw [if_neg (by simpa using h)]
    simp only [List.map_append, List.mem_append, List.map_cons, List.map_nil,
      List.mem_singleton]

theorem mem_map_fst_mergeFold {α : Type} (m acc : List (String × α)) (k' : String) :
    k' ∈ ((m.foldl (fun a p => mapSet a p.1 p.2) acc).map Prod.fst) ↔
      k' ∈ acc.map Prod.fst ∨ k' ∈ m.map Prod.fst := by
  induction m generalizing acc with
  | nil => simp
  | cons p rest ih =>
    simp only [List.foldl_cons, ih, mem_map_fst_mapSet, List.map_cons, List.mem_cons]
    tauto

/-! ### `joinDot` lemmas -/

theorem joinDot_append_singleton (xs : List String) (hxs : xs ≠ []) (y : String) :
    joinDot (xs ++ [y]) = joinDot xs ++ "." ++ y := by
  induction xs with
  | nil => exact absurd rfl hxs
  | cons x rest ih =>
    cases rest with
    | nil => simp [joinDot]
    | cons r rs =>
      have hr : joinDot ((r :: rs) ++ [y]) = joinDot (r :: rs) ++ "." ++ y := ih (by simp)
      show joinDot (x :: ((r :: rs) ++ [y])) = joinDot (x :: r :: rs) ++ "." ++ y
      have h1 : joinDot (x :: ((r :: rs) ++ [y])) = x ++ "." ++ joinDot ((r :: rs) ++ [y]) := by
        simp [joinDot]
      have h2 : joinDot (x :: r :: rs) = x ++ "." ++ joinDot (r :: rs) := by
        simp [joinDot]
      rw [h1, hr, h2]
      simp [String.append_assoc]

/-! ### Link Resolver: error-freedom and key coverage -/

theorem resolveLinksChildren_spec (ds : List Diagram) (curr cat : String)
    (hP : ∀ d ∈ ds, ∀ curr' outP', (resolveLinks curr' outP' d).2 = none ∧
      ∀ k, k ∈ (resolveLinks curr' outP' d).1.map Prod.fst ↔ k ∈ boardIds curr' d) :
    ∀ cop acc, (resolveLinksChildren curr cat cop ds acc).2 = none ∧
    ∀ k, k ∈ (resolveLinksChildren curr cat cop ds acc).1.map Prod.fst ↔
      k ∈ acc.map Prod.fst ∨ k ∈ boardIdsList curr cat ds := by
  induction ds with
  | nil => intro cop acc; simp [resolveLinksChildren, boardIdsList]
  | cons dl rest ih =>
    intro cop acc
    obtain ⟨he, hm⟩ := hP dl (List.mem_cons_self dl rest) (joinDot [curr, cat, dl.name]) cop
    rcases hrl : resolveLinks (joinDot [curr, cat, dl.name]) cop dl with ⟨m, e⟩
    rw [hrl] at he hm
    simp only at he
    subst he
    have ihr := ih (fun d hd => hP d (List.mem_cons_of_mem dl hd)) cop
      (m.foldl (fun a p => mapSet a p.1 p.2) acc)
    simp only [resolveLinksChildren, hrl]
    refine ⟨ihr.1, ?_⟩
    intro k
    rw [ihr.2 k, mem_map_fst_mergeFold]
    simp only [boardIdsList, List.mem_append]
    rw [hm k]
    tauto

theorem resolveLinks_spec : ∀ d : Diagram, ∀ curr outP,
    (resolveLinks curr outP d).2 = none ∧
    ∀ k, k ∈ (resolveLinks curr outP d).1.map Prod.fst ↔ k ∈ boardIds curr d := by
  refine diagram_ind _ ?_
  intro nm fo sh f ls ss ts hls hss hts curr outP
  simp only [resolveLinks]
  obtain ⟨he1, hm1⟩ := resolveLinksChildren_spec ls curr "layers" hls
    (categoryOutputPath (namedOutputPath outP nm) "layers" ss ts)
    [(curr, boardOutputPathOf (namedOutputPath outP nm) ls ss ts)]
  rcases h1 : resolveLinksChildren curr "layers"
      (categoryOutputPath (namedOutputPath outP nm) "layers" ss ts) ls
      [(curr, boardOutputPathOf (namedOutputPath outP nm) ls ss ts)] with ⟨m1, e1⟩
  rw [h1] at he1 hm1
  simp only at he1
  subst he1
  simp only [h1]
  obtain ⟨he2, hm2⟩ := resolveLinksChildren_spec ss curr "scenarios" hss
    (categoryOutputPath (namedOutputPath outP nm) "scenarios" ls ts) m1
  rcases h2 : resolveLinksChildren curr "scenarios"
      (categoryOutputPath (namedOutputPath outP nm) "scenarios" ls ts) ss m1 with ⟨m2, e2⟩
  rw [h2] at he2 hm2
  simp only at he2
  subst he2
  simp only [h2]
  obtain ⟨he3, hm3⟩ := resolveLinksChildren_spec ts curr "steps" hts
    (categoryOutputPath (namedOutputPath outP nm) "steps" ls ss) m2
  rcases h3 : resolveLinksChildren curr "steps"
      (categoryOutputPath (namedOutputPath outP nm) "steps" ls ss) ts m2 with ⟨m3, e3⟩
  rw [h3] at he3 hm3
  simp only at he3
  subst he3
  simp only [h3]
  simp only at hm1 hm2 hm3
  refine ⟨trivial, ?_⟩
  intro k
  simp only [boardIds, List.mem_cons, List.mem_append]
  rw [hm3 k, hm2 k, hm1 k]
  simp only [List.map_cons, List.map_nil, List.mem_singleton]
  tauto

end D2


namespace D2

/-! ### Pagination Indexer: key coverage and the dense-index characterization -/

theorem enumFrom_map_fst (n : Nat) (ks : List String) : (enumFrom n ks).map Prod.fst = ks := by
  induction ks generalizing n with
  | nil => rfl
  | cons k rest ih => simp [enumFrom, ih]

theorem enumFrom_length (n : Nat) (ks : List String) : (enumFrom n ks).length = ks.length := by
  have := congrArg List.length (enumFrom_map_fst n ks)
  simpa using this

theorem enumFrom_append (n : Nat) (a b : List String) :
    enumFrom n (a ++ b) = enumFrom n a ++ enumFrom (n + a.length) b := by
  induction a generalizing n with
  | nil => simp [enumFrom]
  | cons k rest ih =>
    have hn : n + 1 + rest.length = n + (rest.length + 1) := by omega
    have hstep : enumFrom n ((k :: rest) ++ b) = (k, n) :: enumFrom (n + 1) (rest ++ b) := rfl
    rw [hstep, ih (n + 1), hn]
    rfl

theorem enumFrom_map_snd (n : Nat) (ks : List String) :
    (enumFrom n ks).map Prod.snd = List.range' n ks.length := by
  induction ks generalizing n with
  | nil => rfl
  | cons k rest ih => simp [enumFrom, ih, List.range'_succ]

theorem mapSet_fresh {α : Type} (m : List (String × α)) (k : String) (v : α)
    (h : k ∉ m.map Prod.fst) : mapSet m k v = m ++ [(k, v)] := by
  have hc : m.any (fun p => p.1 == k) = false := by
    rw [List.any_eq_false]
    intro p hp
    by_contra hb
    exact h (List.mem_map.mpr ⟨p, hp, by simpa using hb⟩)
  unfold mapSet
  rw [hc]
  rfl

theorem mergeFold_disjoint {α : Type} (m : List (String × α)) :
    ∀ acc, (∀ k ∈ m.map Prod.fst, k ∉ acc.map Prod.fst) → (m.map Prod.fst).Nodup →
    m.foldl (fun a p => mapSet a p.1 p.2) acc = acc ++ m := by
  induction m with
  | nil => intro acc _ _; simp
  | cons p rest ih =>
    intro acc hdisj hnd
    simp only [List.map_cons, List.nodup_cons] at hnd
    have hfresh : p.1 ∉ acc.map Prod.fst :=
      hdisj p.1 (by simp)
    simp only [List.foldl_cons]
    rw [mapSet_fresh acc p.1 p.2 hfresh]
    have hdisj' : ∀ k ∈ rest.map Prod.fst, k ∉ (acc ++ [(p.1, p.2)]).map Prod.fst := by
      intro k hk
      simp only [List.map_append, List.mem_append, List.map_cons, List.map_nil,
        List.mem_singleton]
      rintro (ha | rfl)
      · exact hdisj k (by simp [hk]) ha
      · exact hnd.1 hk
    rw [ih (acc ++ [(p.1, p.2)]) hdisj' hnd.2]
    simp

/-- Key coverage of `buildBoardIdToIndex` for one child loop. -/
theorem build_list_mem_spec (ds : List Diagram) (basePath : List String) (cat : String)
    (path : List String) (hpath : path = basePath ++ [cat]) (hbase : basePath ≠ [])
    (hP : ∀ d ∈ ds, ∀ dict (path' : List String), path' ≠ [] →
      ∀ k, k ∈ (buildBoardIdToIndex d (some dict) path').map Prod.fst ↔
        k ∈ dict.map Prod.fst ∨ k ∈ boardIds (joinDot (path' ++ [d.name])) d) :
    ∀ dict k, k ∈ (buildBoardIdToIndexList ds dict path).map Prod.fst ↔
      k ∈ dict.map Prod.fst ∨ k ∈ boardIdsList (joinDot basePath) cat ds := by
  subst hpath
  induction ds with
  | nil => intro dict k; simp [buildBoardIdToIndexList, boardIdsList]
  | cons dl rest ih =>
    intro dict k
    have hid : joinDot ((basePath ++ [cat]) ++ [dl.name]) =
        joinDot [joinDot basePath, cat, dl.name] := by
      rw [joinDot_append_singleton (basePath ++ [cat]) (by simp) dl.name,
        joinDot_append_singleton basePath hbase cat]
      simp [joinDot, String.append_assoc]
    simp only [buildBoardIdToIndexList]
    rw [ih (fun d hd => hP d (List.mem_cons_of_mem dl hd))
      (buildBoardIdToIndex dl (some dict) (basePath ++ [cat])) k]
    rw [hP dl (List.mem_cons_self dl rest) dict (basePath ++ [cat]) (by simp) k]
    rw [hid]
    simp only [boardIdsList, List.mem_append]
    tauto

theorem build_mem_spec : ∀ d : Diagram, ∀ dict (path : List String), path ≠ [] →
    ∀ k, k ∈ (buildBoardIdToIndex d (some dict) path).map Prod.fst ↔
      k ∈ dict.map Prod.fst ∨ k ∈ boardIds (joinDot (path ++ [d.name])) d := by
  refine diagram_ind _ ?_
  intro nm fo sh f ls ss ts hls hss hts dict path hpath k
  simp only [buildBoardIdToIndex]
  rw [build_list_mem_spec ts (path ++ [nm]) "steps" ((path ++ [nm]) ++ ["steps"]) rfl
    (by simp) hts]
  rw [build_list_mem_spec ss (path ++ [nm]) "scenarios" ((path ++ [nm]) ++ ["scenarios"]) rfl
    (by simp) hss]
  rw [build_list_mem_spec ls (path ++ [nm]) "layers" ((path ++ [nm]) ++ ["layers"]) rfl
    (by simp) hls]
  rw [mem_map_fst_mapSet]
  simp only [Diagram.name, boardIds, List.mem_cons, List.mem_append]
  tauto

theorem build_root_mem_spec (d : Diagram) (k : String) :
    k ∈ (buildBoardIdToIndex d none []).map Prod.fst ↔ k ∈ boardIds "root" d := by
  cases d with
  | mk nm fo sh f ls ss ts =>
    simp only [buildBoardIdToIndex, List.nil_append]
    rw [build_list_mem_spec ts ["root"] "steps" (["root"] ++ ["steps"]) rfl (by simp)
      (fun d _ => build_mem_spec d)]
    rw [build_list_mem_spec ss ["root"] "scenarios" (["root"] ++ ["scenarios"]) rfl (by simp)
      (fun d _ => build_mem_spec d)]
    rw [build_list_mem_spec ls ["root"] "layers" (["root"] ++ ["layers"]) rfl (by simp)
      (fun d _ => build_mem_spec d)]
    rw [mem_map_fst_mapSet]
    simp only [boardIds, joinDot, List.mem_cons, List.mem_append, List.map_nil,
      List.not_mem_nil]
    tauto

end D2


namespace D2

/-! ### Dense pagination indices under distinct identifiers -/

theorem build_list_val_spec (ds : List Diagram) (basePath : List String) (cat : String)
    (path : List String) (hpath : path = basePath ++ [cat]) (hbase : basePath ≠ [])
    (hP : ∀ d ∈ ds, ∀ dict (path' : List String), path' ≠ [] →
      (boardIds (joinDot (path' ++ [d.name])) d).Nodup →
      (∀ i ∈ boardIds (joinDot (path' ++ [d.name])) d, i ∉ dict.map Prod.fst) →
      buildBoardIdToIndex d (some dict) path' =
        dict ++ enumFrom dict.length (boardIds (joinDot (path' ++ [d.name])) d)) :
    ∀ dict, (boardIdsList (joinDot basePath) cat ds).Nodup →
    (∀ i ∈ boardIdsList (joinDot basePath) cat ds, i ∉ dict.map Prod.fst) →
    buildBoardIdToIndexList ds dict path =
      dict ++ enumFrom dict.length (boardIdsList (joinDot basePath) cat ds) := by
  subst hpath
  induction ds with
  | nil => intro dict _ _; simp [buildBoardIdToIndexList, boardIdsList, enumFrom]
  | cons dl rest ih =>
    intro dict hnd hfresh
    have hid : joinDot [joinDot basePath, cat, dl.name] =
        joinDot ((basePath ++ [cat]) ++ [dl.name]) := by
      rw [joinDot_append_singleton (basePath ++ [cat]) (by simp) dl.name,
        joinDot_append_singleton basePath hbase cat]
      simp [joinDot, String.append_assoc]
    simp only [boardIdsList] at hnd hfresh ⊢
    rw [hid] at hnd hfresh ⊢
    rw [List.nodup_append] at hnd
    obtain ⟨hnd1, hnd2, hdisj⟩ := hnd
    have hfresh1 : ∀ i ∈ boardIds (joinDot ((basePath ++ [cat]) ++ [dl.name])) dl,
        i ∉ dict.map Prod.fst := by
      intro i hi
      exact hfresh i (List.mem_append.mpr (Or.inl hi))
    have hchild := hP dl (List.mem_cons_self dl rest) dict (basePath ++ [cat]) (by simp)
      hnd1 hfresh1
    simp only [buildBoardIdToIndexList]
    rw [hchild]
    have hfresh2 : ∀ i ∈ boardIdsList (joinDot basePath) cat rest,
        i ∉ (dict ++ enumFrom dict.length
          (boardIds (joinDot ((basePath ++ [cat]) ++ [dl.name])) dl)).map Prod.fst := by
      intro i hi
      simp only [List.map_append, List.mem_append, enumFrom_map_fst]
      rintro (hd | hd)
      · exact hfresh i (List.mem_append.mpr (Or.inr hi)) hd
      · exact hdisj hd hi
    rw [ih (fun d hd => hP d (List.mem_cons_of_mem dl hd))
      (dict ++ enumFrom dict.length (boardIds (joinDot ((basePath ++ [cat]) ++ [dl.name])) dl))
      hnd2 hfresh2]
    have hlen : (dict ++ enumFrom dict.length
        (boardIds (joinDot ((basePath ++ [cat]) ++ [dl.name])) dl)).length =
        dict.length + (boardIds (joinDot ((basePath ++ [cat]) ++ [dl.name])) dl).length := by
      simp [enumFrom_length]
    rw [hlen, enumFrom_append, List.append_assoc]

theorem build_val_spec : ∀ d : Diagram, ∀ dict (path : List String), path ≠ [] →
    (boardIds (joinDot (path ++ [d.name])) d).Nodup →
    (∀ i ∈ boardIds (joinDot (path ++ [d.name])) d, i ∉ dict.map Prod.fst) →
    buildBoardIdToIndex d (some dict) path =
      dict ++ enumFrom dict.length (boardIds (joinDot (path ++ [d.name])) d) := by
  refine diagram_ind _ ?_
  intro nm fo sh f ls ss ts hls hss hts dict path hpath hnd hfresh
  simp only [Diagram.name, boardIds] at hnd hfresh ⊢
  set k := joinDot (path ++ [nm]) with hk
  set L1 := boardIdsList k "layers" ls with hL1
  set L2 := boardIdsList k "scenarios" ss with hL2
  set L3 := boardIdsList k "steps" ts with hL3
  rw [List.nodup_cons] at hnd
  obtain ⟨hkey, hrest⟩ := hnd
  rw [List.nodup_append] at hrest
  obtain ⟨h12, hnd3, hdisj3⟩ := hrest
  rw [List.nodup_append] at h12
  obtain ⟨hnd1, hnd2, hdisj12⟩ := h12
  simp only [buildBoardIdToIndex]
  have hd1 : mapSet dict k dict.length = dict ++ [(k, dict.length)] :=
    mapSet_fresh dict k dict.length (hfresh k (List.mem_cons_self k _))
  rw [hd1]
  have hkeys1 : (dict ++ [(k, dict.length)]).map Prod.fst = dict.map Prod.fst ++ [k] := by
    simp
  have hfr1 : ∀ i ∈ L1, i ∉ (dict ++ [(k, dict.length)]).map Prod.fst := by
    intro i hi
    rw [hkeys1]
    simp only [List.mem_append, List.mem_singleton]
    rintro (hd | rfl)
    · exact hfresh i (List.mem_cons_of_mem k (by simp [hi])) hd
    · exact hkey (by simp [hi])
  have hc1 := build_list_val_spec ls (path ++ [nm]) "layers" ((path ++ [nm]) ++ ["layers"]) rfl
    (by simp) hls (dict ++ [(k, dict.length)]) (by rw [← hk]; exact hnd1)
    (by rw [← hk]; exact hfr1)
  rw [← hk] at hc1
  rw [hc1]
  have hlen1 : (dict ++ [(k, dict.length)]).length = dict.length + 1 := by simp
  rw [hlen1]
  have hfr2 : ∀ i ∈ L2, i ∉ ((dict ++ [(k, dict.length)]) ++
      enumFrom (dict.length + 1) L1).map Prod.fst := by
    intro i hi
    simp only [List.map_append, List.mem_append, enumFrom_map_fst, hkeys1,
      List.mem_singleton]
    rintro ((hd | rfl) | hd)
    · exact hfresh i (List.mem_cons_of_mem k (by simp [hi])) hd
    · exact hkey (by simp [hi])
    · exact hdisj12 hd hi
  have hc2 := build_list_val_spec ss (path ++ [nm]) "scenarios" ((path ++ [nm]) ++ ["scenarios"])
    rfl (by simp) hss
    ((dict ++ [(k, dict.length)]) ++ enumFrom (dict.length + 1) L1)
    (by rw [← hk]; exact hnd2) (by rw [← hk]; exact hfr2)
  rw [← hk] at hc2
  rw [hc2]
  have hlen2 : ((dict ++ [(k, dict.length)]) ++ enumFrom (dict.length + 1) L1).length =
      dict.length + 1 + L1.length := by
    simp [enumFrom_length]
    omega
  rw [hlen2]
  have hfr3 : ∀ i ∈ L3, i ∉ (((dict ++ [(k, dict.length)]) ++ enumFrom (dict.length + 1) L1) ++
      enumFrom (dict.length + 1 + L1.length) L2).map Prod.fst := by
    intro i hi
    simp only [List.map_append, List.mem_append, enumFrom_map_fst, hkeys1,
      List.mem_singleton]
    rintro (((hd | rfl) | hd) | hd)
    · exact hfresh i (List.mem_cons_of_mem k (by simp [hi])) hd
    · exact hkey (by simp [hi])
    · exact hdisj3 (List.mem_append.mpr (Or.inl hd)) hi
    · exact hdisj3 (List.mem_append.mpr (Or.inr hd)) hi
  have hc3 := build_list_val_spec ts (path ++ [nm]) "steps" ((path ++ [nm]) ++ ["steps"]) rfl
    (by simp) hts
    (((dict ++ [(k, dict.length)]) ++ enumFrom (dict.length + 1) L1) ++
      enumFrom (dict.length + 1 + L1.length) L2)
    (by rw [← hk]; exact hnd3) (by rw [← hk]; exact hfr3)
  rw [← hk] at hc3
  rw [hc3]
  have hlen3 : (((dict ++ [(k, dict.length)]) ++ enumFrom (dict.length + 1) L1) ++
      enumFrom (dict.length + 1 + L1.length) L2).length =
      dict.length + 1 + L1.length + L2.length := by
    simp [enumFrom_length]
    omega
  rw [hlen3]
  rw [enumFrom, enumFrom_append, enumFrom_append]
  simp only [List.append_assoc, List.cons_append, List.nil_append]
  have hb : dict.length + 1 + L1.length + L2.length =
      dict.length + 1 + (L1.length + L2.length) := by omega
  rw [hb, ← hL3, List.length_append]

end D2


namespace D2

theorem build_root_val (d : Diagram) (h : (boardIds "root" d).Nodup) :
    buildBoardIdToIndex d none [] = enumFrom 0 (boardIds "root" d) := by
  cases d with
  | mk nm fo sh f ls ss ts =>
    simp only [boardIds] at h ⊢
    set L1 := boardIdsList "root" "layers" ls with hL1
    set L2 := boardIdsList "root" "scenarios" ss with hL2
    set L3 := boardIdsList "root" "steps" ts with hL3
    rw [List.nodup_cons] at h
    obtain ⟨hkey, hrest⟩ := h
    rw [List.nodup_append] at hrest
    obtain ⟨h12, hnd3, hdisj3⟩ := hrest
    rw [List.nodup_append] at h12
    obtain ⟨hnd1, hnd2, hdisj12⟩ := h12
    simp only [buildBoardIdToIndex, List.nil_append, joinDot]
    have hms : mapSet ([] : List (String × Nat)) "root" ([] : List (String × Nat)).length =
        [("root", 0)] := rfl
    rw [hms]
    have hfr1 : ∀ i ∈ L1, i ∉ ([("root", 0)] : List (String × Nat)).map Prod.fst := by
      intro i hi
      simp only [List.map_cons, List.map_nil, List.mem_singleton]
      rintro rfl
      exact hkey (by simp [hi])
    have hc1 := build_list_val_spec ls ["root"] "layers" (["root"] ++ ["layers"]) rfl
      (by simp) (fun d _ => build_val_spec d) [("root", 0)] (by rw [joinDot]; exact hnd1)
      (by rw [joinDot]; exact hfr1)
    rw [joinDot] at hc1
    rw [hc1]
    have hlen1 : ([("root", 0)] : List (String × Nat)).length = 1 := rfl
    rw [hlen1]
    have hfr2 : ∀ i ∈ L2, i ∉ (([("root", 0)] : List (String × Nat)) ++
        enumFrom ([("root", 0)] : List (String × Nat)).length L1).map Prod.fst := by
      intro i hi
      simp only [List.map_append, List.mem_append, enumFrom_map_fst, List.map_cons,
        List.map_nil, List.mem_singleton]
      rintro (rfl | hd)
      · exact hkey (by simp [hi])
      · exact hdisj12 hd hi
    have hc2 := build_list_val_spec ss ["root"] "scenarios" (["root"] ++ ["scenarios"]) rfl
      (by simp) (fun d _ => build_val_spec d) ([("root", 0)] ++ enumFrom 1 L1)
      (by rw [joinDot]; exact hnd2) (by rw [joinDot]; exact hfr2)
    rw [joinDot] at hc2
    rw [hc2]
    have hlen2 : (([("root", 0)] : List (String × Nat)) ++ enumFrom 1 L1).length =
        1 + L1.length := by
      simp [enumFrom_length]
      omega
    rw [hlen2]
    have hfr3 : ∀ i ∈ L3, i ∉ ((([("root", 0)] : List (String × Nat)) ++ enumFrom 1 L1) ++
        enumFrom (1 + L1.length) L2).map Prod.fst := by
      intro i hi
      simp only [List.map_append, List.mem_append, enumFrom_map_fst, List.map_cons,
        List.map_nil, List.mem_singleton]
      rintro ((rfl | hd) | hd)
      · exact hkey (by simp [hi])
      · exact hdisj3 (List.mem_append.mpr (Or.inl hd)) hi
      · exact hdisj3 (List.mem_append.mpr (Or.inr hd)) hi
    have hc3 := build_list_val_spec ts ["root"] "steps" (["root"] ++ ["steps"]) rfl
      (by simp) (fun d _ => build_val_spec d)
      (([("root", 0)] ++ enumFrom 1 L1) ++ enumFrom (1 + L1.length) L2)
      (by rw [joinDot]; exact hnd3) (by rw [joinDot]; exact hfr3)
    rw [joinDot] at hc3
    rw [hc3]
    have hlen3 : ((([("root", 0)] : List (String × Nat)) ++ enumFrom 1 L1) ++
        enumFrom (1 + L1.length) L2).length = 1 + L1.length + L2.length := by
      simp [enumFrom_length]
      omega
    rw [hlen3]
    rw [enumFrom, enumFrom_append, enumFrom_append]
    simp only [List.append_assoc, List.cons_append, List.nil_append]
    have hb : 1 + L1.length + L2.length = 1 + (L1.length + L2.length) := by omega
    rw [hb, ← hL3, List.length_append]

end D2


namespace D2

/-! ### Link Resolver: exact key lists under distinct identifiers -/

theorem resolveChildren_val_spec (ds : List Diagram) (curr cat : String)
    (hP : ∀ d ∈ ds, ∀ curr' outP', (boardIds curr' d).Nodup →
      (resolveLinks curr' outP' d).1.map Prod.fst = boardIds curr' d) :
    ∀ cop acc, (boardIdsList curr cat ds).Nodup →
    (∀ i ∈ boardIdsList curr cat ds, i ∉ acc.map Prod.fst) →
    (resolveLinksChildren curr cat cop ds acc).1.map Prod.fst =
      acc.map Prod.fst ++ boardIdsList curr cat ds := by
  induction ds with
  | nil => intro cop acc _ _; simp [resolveLinksChildren, boardIdsList]
  | cons dl rest ih =>
    intro cop acc hnd hfresh
    simp only [boardIdsList] at hnd hfresh ⊢
    rw [List.nodup_append] at hnd
    obtain ⟨hnd1, hnd2, hdisj⟩ := hnd
    have herr := (resolveLinks_spec dl (joinDot [curr, cat, dl.name]) cop).1
    have hkeys := hP dl (List.mem_cons_self dl rest) (joinDot [curr, cat, dl.name]) cop hnd1
    rcases hrl : resolveLinks (joinDot [curr, cat, dl.name]) cop dl with ⟨m, e⟩
    rw [hrl] at herr hkeys
    simp only at herr hkeys
    subst herr
    simp only [resolveLinksChildren, hrl]
    have hmerge : m.foldl (fun a p => mapSet a p.1 p.2) acc = acc ++ m := by
      refine mergeFold_disjoint m acc ?_ ?_
      · intro i hi
        rw [hkeys] at hi
        exact hfresh i (List.mem_append.mpr (Or.inl hi))
      · rw [hkeys]; exact hnd1
    rw [hmerge]
    have hfresh2 : ∀ i ∈ boardIdsList curr cat rest, i ∉ (acc ++ m).map Prod.fst := by
      intro i hi
      simp only [List.map_append, List.mem_append, hkeys]
      rintro (hd | hd)
      · exact hfresh i (List.mem_append.mpr (Or.inr hi)) hd
      · exact hdisj hd hi
    rw [ih (fun d hd => hP d (List.mem_cons_of_mem dl hd)) cop (acc ++ m) hnd2 hfresh2]
    simp [hkeys, List.append_assoc]

theorem resolve_val_spec : ∀ d : Diagram, ∀ curr outP, (boardIds curr d).Nodup →
    (resolveLinks curr outP d).1.map Prod.fst = boardIds curr d := by
  refine diagram_ind _ ?_
  intro nm fo sh f ls ss ts hls hss hts curr outP hnd
  simp only [boardIds] at hnd ⊢
  set L1 := boardIdsList curr "layers" ls with hL1
  set L2 := boardIdsList curr "scenarios" ss with hL2
  set L3 := boardIdsList curr "steps" ts with hL3
  rw [List.nodup_cons] at hnd
  obtain ⟨hkey, hrest⟩ := hnd
  rw [List.nodup_append] at hrest
  obtain ⟨h12, hnd3, hdisj3⟩ := hrest
  rw [List.nodup_append] at h12
  obtain ⟨hnd1, hnd2, hdisj12⟩ := h12
  simp only [resolveLinks]
  have hfr1 : ∀ i ∈ L1, i ∉ ([(curr, boardOutputPathOf (namedOutputPath outP nm) ls ss ts)]
      : List (String × String)).map Prod.fst := by
    intro i hi
    simp only [List.map_cons, List.map_nil, List.mem_singleton]
    rintro rfl
    exact hkey (by simp [hi])
  have hv1 := resolveChildren_val_spec ls curr "layers" hls
    (categoryOutputPath (namedOutputPath outP nm) "layers" ss ts)
    [(curr, boardOutputPathOf (namedOutputPath outP nm) ls ss ts)] (by rw [← hL1]; exact hnd1)
    (by rw [← hL1]; exact hfr1)
  have he1 := (resolveLinksChildren_spec ls curr "layers" (fun d _ => resolveLinks_spec d)
    (categoryOutputPath (namedOutputPath outP nm) "layers" ss ts)
    [(curr, boardOutputPathOf (namedOutputPath outP nm) ls ss ts)]).1
  rcases h1 : resolveLinksChildren curr "layers"
      (categoryOutputPath (namedOutputPath outP nm) "layers" ss ts) ls
      [(curr, boardOutputPathOf (namedOutputPath outP nm) ls ss ts)] with ⟨m1, e1⟩
  rw [h1] at hv1 he1
  simp only at hv1 he1
  subst he1
  simp only [h1]
  have hkeys1 : m1.map Prod.fst = curr :: L1 := by
    rw [hv1]; simp
  have hfr2 : ∀ i ∈ L2, i ∉ m1.map Prod.fst := by
    intro i hi
    rw [hkeys1]
    simp only [List.mem_cons]
    rintro (rfl | hd)
    · exact hkey (by simp [hi])
    · exact hdisj12 hd hi
  have hv2 := resolveChildren_val_spec ss curr "scenarios" hss
    (categoryOutputPath (namedOutputPath outP nm) "scenarios" ls ts) m1
    (by rw [← hL2]; exact hnd2) (by rw [← hL2]; exact hfr2)
  have he2 := (resolveLinksChildren_spec ss curr "scenarios" (fun d _ => resolveLinks_spec d)
    (categoryOutputPath (namedOutputPath outP nm) "scenarios" ls ts) m1).1
  rcases h2 : resolveLinksChildren curr "scenarios"
      (categoryOutputPath (namedOutputPath outP nm) "scenarios" ls ts) ss m1 with ⟨m2, e2⟩
  rw [h2] at hv2 he2
  simp only at hv2 he2
  subst he2
  simp only [h2]
  have hkeys2 : m2.map Prod.fst = (curr :: L1) ++ L2 := by
    rw [hv2, hkeys1]
  have hfr3 : ∀ i ∈ L3, i ∉ m2.map Prod.fst := by
    intro i hi
    rw [hkeys2]
    simp only [List.cons_append, List.mem_cons, List.mem_append]
    rintro (rfl | hd | hd)
    · exact hkey (by simp [hi])
    · exact hdisj3 (List.mem_append.mpr (Or.inl hd)) hi
    · exact hdisj3 (List.mem_append.mpr (Or.inr hd)) hi
  have hv3 := resolveChildren_val_spec ts curr "steps" hts
    (categoryOutputPath (namedOutputPath outP nm) "steps" ls ss) m2
    (by rw [← hL3]; exact hnd3) (by rw [← hL3]; exact hfr3)
  have he3 := (resolveLinksChildren_spec ts curr "steps" (fun d _ => resolveLinks_spec d)
    (categoryOutputPath (namedOutputPath outP nm) "steps" ls ss) m2).1
  rcases h3 : resolveLinksChildren curr "steps"
      (categoryOutputPath (namedOutputPath outP nm) "steps" ls ss) ts m2 with ⟨m3, e3⟩
  rw [h3] at hv3 he3
  simp only at hv3 he3
  subst he3
  simp only [h3]
  rw [hv3, hkeys2]
  simp [List.append_assoc]

/-! ### Identifier count equals board count -/

theorem boardIdsList_length (ds : List Diagram) (curr cat : String)
    (hP : ∀ d ∈ ds, ∀ curr', (boardIds curr' d).length = boardCount d) :
    (boardIdsList curr cat ds).length = boardCountList ds := by
  induction ds with
  | nil => rfl
  | cons dl rest ih =>
    simp only [boardIdsList, boardCountList, List.length_append]
    rw [hP dl (List.mem_cons_self dl rest) (joinDot [curr, cat, dl.name]),
      ih (fun d hd => hP d (List.mem_cons_of_mem dl hd))]

theorem boardIds_length : ∀ d : Diagram, ∀ curr, (boardIds curr d).length = boardCount d := by
  refine diagram_ind _ ?_
  intro nm fo sh f ls ss ts hls hss hts curr
  simp only [boardIds, boardCount, List.length_cons, List.length_append]
  rw [boardIdsList_length ls curr "layers" hls, boardIdsList_length ss curr "scenarios" hss,
    boardIdsList_length ts curr "steps" hts]
  omega

/-! ### Link identifiers are never the empty string -/

theorem joinDot3_ne_empty (a b c : String) : joinDot [a, b, c] ≠ "" := by
  intro h
  have hlen := congrArg String.length h
  simp only [joinDot, String.length_append] at hlen
  have hdot : ("." : String).length = 1 := rfl
  have hnil : ("" : String).length = 0 := rfl
  rw [hdot, hnil] at hlen
  omega

theorem boardIdsList_ne_empty (ds : List Diagram) (curr cat : String)
    (hP : ∀ d ∈ ds, ∀ curr', curr' ≠ "" → ∀ k ∈ boardIds curr' d, k ≠ "") :
    ∀ k ∈ boardIdsList curr cat ds, k ≠ "" := by
  induction ds with
  | nil => intro k hk; simp [boardIdsList] at hk
  | cons dl rest ih =>
    intro k hk
    simp only [boardIdsList, List.mem_append] at hk
    rcases hk with hk | hk
    · exact hP dl (List.mem_cons_self dl rest) (joinDot [curr, cat, dl.name])
        (joinDot3_ne_empty curr cat dl.name) k hk
    · exact ih (fun d hd => hP d (List.mem_cons_of_mem dl hd)) k hk

theorem boardIds_ne_empty : ∀ d : Diagram, ∀ curr, curr ≠ "" → ∀ k ∈ boardIds curr d, k ≠ "" := by
  refine diagram_ind _ ?_
  intro nm fo sh f ls ss ts hls hss hts curr hcurr k hk
  simp only [boardIds, List.mem_cons, List.mem_append] at hk
  rcases hk with rfl | (hk | hk) | hk
  · exact hcurr
  · exact boardIdsList_ne_empty ls curr "layers" hls k hk
  · exact boardIdsList_ne_empty ss curr "scenarios" hss k hk
  · exact boardIdsList_ne_empty ts curr "steps" hts k hk

end D2


namespace D2

/-! ### `relink` rewrites exactly the matching links -/

theorem lookup_empty_none {α : Type} (m : List (String × α)) (h : ∀ p ∈ m, p.1 ≠ "") :
    m.lookup "" = none := by
  induction m with
  | nil => rfl
  | cons p rest ih =>
    rcases p with ⟨k, v⟩
    have hk : k ≠ "" := h (k, v) (List.mem_cons_self _ _)
    have hbeq : ("" == k) = false := by
      rw [beq_eq_false_iff_ne]
      exact fun hkk => hk hkk.symm
    simp only [List.lookup, hbeq]
    exact ih (fun q hq => h q (List.mem_cons_of_mem _ hq))

theorem relinkShape_spec (m : List (String × String)) (s : Shape)
    (h : ∀ p ∈ m, p.1 ≠ "") : relinkShape m s = rewriteShapeSpec m s := by
  unfold relinkShape rewriteShapeSpec
  by_cases hl : s.link = ""
  · rw [if_neg (fun hne => hne hl)]
    have hnone : m.lookup s.link = none := by rw [hl]; exact lookup_empty_none m h
    rw [hnone]
    rfl
  · rw [if_pos hl]
    cases hlk : m.lookup s.link with
    | some v => rfl
    | none => rfl

theorem relinkList_spec (ds : List Diagram) (m : List (String × String))
    (h : ∀ p ∈ m, p.1 ≠ "")
    (hP : ∀ d ∈ ds, ∀ m', (∀ p ∈ m', p.1 ≠ "") → relink m' d = rewriteTreeSpec m' d) :
    relinkList m ds = rewriteTreeSpecList m ds := by
  induction ds with
  | nil => rfl
  | cons dl rest ih =>
    simp only [relinkList, rewriteTreeSpecList]
    rw [hP dl (List.mem_cons_self dl rest) m h,
      ih (fun d hd => hP d (List.mem_cons_of_mem dl hd))]

theorem relink_spec : ∀ d : Diagram, ∀ m : List (String × String),
    (∀ p ∈ m, p.1 ≠ "") → relink m d = rewriteTreeSpec m d := by
  refine diagram_ind _ ?_
  intro nm fo sh f ls ss ts hls hss hts m h
  simp only [relink, rewriteTreeSpec]
  rw [relinkList_spec ls m h hls, relinkList_spec ss m h hss, relinkList_spec ts m h hts]
  have hsh : sh.map (relinkShape m) = sh.map (rewriteShapeSpec m) :=
    List.map_congr_left (fun s _ => relinkShape_spec m s h)
  rw [hsh]

end D2


namespace D2

/-! ## Claim theorems -/

/-- C10: for every board tree, output path and identifier, `resolveLinks`
returns a nil error — no execution path produces a non-nil error, so link
resolution always succeeds. -/
theorem C10_resolveLinks_never_errors (curr outputPath : String) (d : Diagram) :
    (resolveLinks curr outputPath d).2 = none :=
  (resolveLinks_spec d curr outputPath).1

/-- C1, counterexample to the claim as stated: the tree `dupBoard` has three
boards, but two sibling layers share the name `"a"` and hence the identifier
`"root.layers.a"`, so both the Link Resolver's and the Pagination Indexer's maps
carry only two entries — not "exactly one entry per board of the tree". -/
theorem C1_counterexample :
    boardCount dupBoard = 3 ∧
    (resolveLinks "root" "o.svg" dupBoard).1.length = 2 ∧
    (buildBoardIdToIndex dupBoard none []).length = 2 := by
  decide

/-- C1 (amended): for every board tree the key set of `resolveLinks` (from root
identifier `"root"`) equals the key set of `buildBoardIdToIndex`; when the
dot-joined link identifiers of the tree are pairwise distinct, both key lists
are exactly the traversal-order identifier list, so each map has exactly one
entry per board. -/
theorem C1_link_resolver_and_indexer_keys (d : Diagram) (outputPath : String) :
    (∀ k, k ∈ (resolveLinks "root" outputPath d).1.map Prod.fst ↔
      k ∈ (buildBoardIdToIndex d none []).map Prod.fst) ∧
    ((boardIds "root" d).Nodup →
      (resolveLinks "root" outputPath d).1.map Prod.fst = boardIds "root" d ∧
      (buildBoardIdToIndex d none []).map Prod.fst = boardIds "root" d ∧
      (resolveLinks "root" outputPath d).1.length = boardCount d ∧
      (buildBoardIdToIndex d none []).length = boardCount d) := by
  constructor
  · intro k
    rw [(resolveLinks_spec d "root" outputPath).2 k, build_root_mem_spec d k]
  · intro hnd
    have h1 := resolve_val_spec d "root" outputPath hnd
    have h2 := build_root_val d hnd
    refine ⟨h1, by rw [h2, enumFrom_map_fst], ?_, ?_⟩
    · have hlen := congrArg List.length h1
      rw [List.length_map] at hlen
      rw [hlen, boardIds_length]
    · rw [h2, enumFrom_length, boardIds_length]

theorem C1_witness :
    (boardIds "root" appBoard).Nodup ∧
    (resolveLinks "root" "diagrams/app.svg" appBoard).1.length = boardCount appBoard :=
  ⟨by decide,
   ((C1_link_resolver_and_indexer_keys appBoard "diagrams/app.svg").2 (by decide)).2.2.1⟩

/-- C3, counterexample to the claim as stated: with two sibling layers both
named `"a"`, the second visit overwrites the key `"root.layers.a"` with
`len(dictionary) = 2`, leaving the index sequence `[0, 2]` — not dense, index 1
is skipped. -/
theorem C3_counterexample :
    buildBoardIdToIndex dupBoard none [] = [("root", 0), ("root.layers.a", 2)] ∧
    (buildBoardIdToIndex dupBoard none []).map Prod.snd = [0, 2] ∧
    boardCount dupBoard = 3 := by
  decide

/-- C3 (amended): when the dot-joined identifiers of the tree are pairwise
distinct, `buildBoardIdToIndex` with nil dictionary and nil path enumerates the
boards in Layers/Scenarios/Steps depth-first order with consecutive indices
starting at zero; the root is keyed literally `"root"` (whatever its `Name`)
with index 0, and the assigned indices are exactly `0, 1, …, boardCount-1`. -/
theorem C3_pagination_dense_indices (d : Diagram) (hnd : (boardIds "root" d).Nodup) :
    buildBoardIdToIndex d none [] = enumFrom 0 (boardIds "root" d) ∧
    (buildBoardIdToIndex d none []).lookup "root" = some 0 ∧
    (buildBoardIdToIndex d none []).map Prod.snd = List.range (boardCount d) := by
  have h := build_root_val d hnd
  refine ⟨h, ?_, ?_⟩
  · rw [h]
    cases d with
    | mk nm fo sh f ls ss ts => simp [boardIds, enumFrom, List.lookup]
  · rw [h, enumFrom_map_snd, boardIds_length, List.range_eq_range']

theorem C3_witness :
    (boardIds "root" appBoard).Nodup ∧
    buildBoardIdToIndex appBoard none [] = enumFrom 0 (boardIds "root" appBoard) :=
  ⟨by decide, (C3_pagination_dense_indices appBoard (by decide)).1⟩

/-- C2: a category's child base output path gets the category-named
subdirectory exactly when at least one of the other two categories is
non-empty, and a sole populated category's children reuse the node's output
path unchanged; on the §8 example tree, `"root"` maps to
`"diagrams/app/index.svg"` and `"root.layers.details"` to
`"diagrams/app/details.svg"` with no `layers/` segment. -/
theorem C2_category_path_collapsing :
    (∀ (outputPath category : String) (otherA otherB : List Diagram),
      otherA ≠ [] ∨ otherB ≠ [] →
        categoryOutputPath outputPath category otherA otherB = nestPath outputPath category) ∧
    (∀ outputPath category : String,
      categoryOutputPath outputPath category [] [] = outputPath) ∧
    resolveLinks "root" "diagrams/app.svg" appBoard =
      ([("root", "diagrams/app/index.svg"),
        ("root.layers.details", "diagrams/app/details.svg")], none) := by
  refine ⟨?_, fun outP cat => rfl, by decide⟩
  intro outP cat oA oB h
  unfold categoryOutputPath
  rw [if_pos]
  rcases h with h | h
  · left
    cases oA with
    | nil => exact absurd rfl h
    | cons x xs => simp
  · right
    cases oB with
    | nil => exact absurd rfl h
    | cons x xs => simp

theorem C2_witness :
    categoryOutputPath "diagrams/app.svg" "layers" [detailsBoard] [] =
      nestPath "diagrams/app.svg" "layers" :=
  C2_category_path_collapsing.1 "diagrams/app.svg" "layers" [detailsBoard] []
    (Or.inl (List.cons_ne_nil detailsBoard []))

/-- C4: for any map produced by `resolveLinks` from the root identifier
`"root"`, `relink` rewrites exactly the shape links that are byte-equal to a
key of the map to that key's value, leaves every other link byte-identical, and
changes nothing else in the tree. -/
theorem C4_relink_rewrites_exactly (d0 d : Diagram) (outputPath : String)
    (m : List (String × String)) (hm : resolveLinks "root" outputPath d0 = (m, none)) :
    relink m d = rewriteTreeSpec m d := by
  have hkeys : ∀ p ∈ m, p.1 ≠ "" := by
    intro p hp
    have hk : p.1 ∈ m.map Prod.fst := List.mem_map.mpr ⟨p, hp, rfl⟩
    have hmem := (resolveLinks_spec d0 "root" outputPath).2 p.1
    rw [hm] at hmem
    simp only at hmem
    exact boardIds_ne_empty d0 "root" (by decide) p.1 (hmem.mp hk)
  exact relink_spec d m hkeys

theorem C4_witness :
    relink (resolveLinks "root" "diagrams/app.svg" appBoard).1 linkedBoard =
      rewriteTreeSpec (resolveLinks "root" "diagrams/app.svg" appBoard).1 linkedBoard :=
  C4_relink_rewrites_exactly appBoard linkedBoard "diagrams/app.svg"
    (resolveLinks "root" "diagrams/app.svg" appBoard).1 (by decide)

/-- C9: when an animation interval greater than zero is requested, `compile`'s
link stage leaves the tree untouched — `resolveLinks`/`relink` run only in the
`animateInterval <= 0` branch, so every shape keeps its original internal
board-identifier link. -/
theorem C9_animated_skips_link_resolution (animateInterval : Int) (outputPath : String)
    (d : Diagram) (h : 0 < animateInterval) :
    compileResolveStage animateInterval outputPath d = (d, none) := by
  unfold compileResolveStage
  rw [if_neg (by omega)]

theorem C9_witness : compileResolveStage 100 "o.svg" linkedBoard = (linkedBoard, none) :=
  C9_animated_skips_link_resolution 100 "o.svg" linkedBoard (by decide)

end D2


namespace D2

/-- C5: evaluation of the partial-failure scenario.  Rendering `threeBoard` with
collaborators that fail exactly on sibling `"b"` writes sibling `"a"`'s file
`dir/out/a.svg` to disk first; `compile` then reports the error with the
`written` flag `false`, so `Run` produces the plain "failed to compile" message
instead of the "partial render written" one the specification requires. -/
theorem C5_partial_render_written_flag_eval :
    compileDefault failBCollab 0 "dir/out.svg" false false threeBoard [] =
      ([("dir/out/a.svg", [1, 10])], [], false, some "render failed") ∧
    runErrorMessage false "render failed" = "failed to compile: render failed" ∧
    runErrorMessage true "render failed" =
      "failed to fully compile (partial render written): render failed" := by
  refine ⟨by decide, by decide, by decide⟩

/-- C7, counterexample to the claim as stated: `folderBoard` is a board with
children (one layer `"a"`), its descendant is rendered and written (the trace
and the disk show it), the call succeeds, and yet `render` returns the empty
buffer list — no parent buffer is prepended and the descendant buffers are
discarded, because a folder-only board returns `nil, nil` (main.go:596). -/
theorem C7_counterexample :
    render okCollab { masterID := "" } "o.svg" false false folderBoard [] =
      ([("o/a.svg", [1, 10])], [("o/a.svg", [1])], [], none) := by
  decide

/-- C7 (amended): for every board that is *not* folder-only, `render` performs
the board's own single-board render after all three child categories have
recursed — the own entry is the last element of the invocation trace — and on
success prepends the own buffer to the accumulated descendant buffers, so the
returned sequence starts with this board's bytes. -/
theorem C7_parent_rendered_last (c : Collab) (opts : RenderOpts) (outputPath : String)
    (bundle forceAppendix : Bool) (d : Diagram) (disk : Disk)
    (hfo : d.isFolderOnly = false)
    (hok : (render c opts outputPath bundle forceAppendix d disk).2.2.2 = none) :
    ∃ disk' kidsTrace kidsBoards own,
      render c opts outputPath bundle forceAppendix d disk =
        (disk', kidsTrace ++ [own], own.2 :: kidsBoards, none) := by
  cases d with
  | mk nm fo sh f ls ss ts =>
    simp only [Diagram.isFolderOnly] at hfo
    subst hfo
    simp only [render] at hok ⊢
    by_cases hstd : (ls.length > 0 ∨ ss.length > 0 ∨ ts.length > 0) ∧
        namedOutputPath outputPath nm = "-"
    · rw [if_pos hstd] at hok
      simp at hok
    · rw [if_neg hstd] at hok ⊢
      set disk0 := if ls.length > 0 ∨ ss.length > 0 ∨ ts.length > 0 then
          removeAll disk (trimSuffix (namedOutputPath outputPath nm)
            (pathExt (namedOutputPath outputPath nm)))
        else disk with hdisk0
      rcases heq1 : renderList c opts
          (categoryOutputPath (namedOutputPath outputPath nm) "layers" ss ts)
          bundle forceAppendix ls disk0 with ⟨dk1, tr1, bs1, e1⟩
      cases e1 with
      | some e =>
        simp only [heq1] at hok
        simp at hok
      | none =>
        simp only [heq1] at hok ⊢
        rcases heq2 : renderList c opts
            (categoryOutputPath (namedOutputPath outputPath nm) "scenarios" ls ts)
            bundle forceAppendix ss dk1 with ⟨dk2, tr2, bs2, e2⟩
        cases e2 with
        | some e =>
          simp only [heq2] at hok
          simp at hok
        | none =>
          simp only [heq2] at hok ⊢
          rcases heq3 : renderList c opts
              (categoryOutputPath (namedOutputPath outputPath nm) "steps" ls ss)
              bundle forceAppendix ts dk2 with ⟨dk3, tr3, bs3, e3⟩
          cases e3 with
          | some e =>
            simp only [heq3] at hok
            simp at hok
          | none =>
            simp only [heq3] at hok ⊢
            rw [if_pos (by simp : ¬(false : Bool) = true)] at hok ⊢
            rcases heq4 : underscoreRender c opts
                (boardOutputPathOf (namedOutputPath outputPath nm) ls ss ts)
                bundle forceAppendix (Diagram.mk nm false sh f ls ss ts) dk3
              with ⟨dk4, out4, e4⟩
            cases e4 with
            | some e =>
              simp only [heq4] at hok
              simp at hok
            | none =>
              simp only [heq4]
              exact ⟨dk4, tr1 ++ tr2 ++ tr3, bs1 ++ bs2 ++ bs3,
                (boardOutputPathOf (namedOutputPath outputPath nm) ls ss ts, out4), rfl⟩

theorem C7_witness :
    ∃ disk' kidsTrace kidsBoards own,
      render okCollab { masterID := "" } "o.svg" false false threeBoard [] =
        (disk', kidsTrace ++ [own], own.2 :: kidsBoards, none) :=
  C7_parent_rendered_last okCollab { masterID := "" } "o.svg" false false threeBoard []
    (by decide) (by decide)

/-- C8: in the single-board post-processing pipeline (`_render`, vector
branch), the local and remote bundling error channels are combined with
`multierr.Combine` into the returned error while the post-processed bytes are
still produced, written to the output path, and returned alongside that
aggregate error — bundling failures never short-circuit the pipeline. -/
theorem C8_bundling_errors_best_effort (c : Collab) (opts : RenderOpts) (outputPath : String)
    (forceAppendix : Bool) (d : Diagram) (disk : Disk)
    (hpng : pathExt outputPath ≠ ".png")
    (hmid : opts.masterID = "")
    (hrender : (c.d2svgRender d false).2 = none)
    (hpp : ∀ b, (c.postProcess b).2 = none)
    (hmk : ∀ p, c.mkdirAll p = none)
    (hw : ∀ p b, c.writePath p b = none) :
    ∃ svg4,
      svg4 = (if forceAppendix then
          c.appendixAppend d (c.bundleRemote (c.bundleLocal
            (c.postProcess (c.d2svgRender d false).1).1).1).1
        else (c.bundleRemote (c.bundleLocal (c.postProcess (c.d2svgRender d false).1).1).1).1) ∧
      underscoreRender c opts outputPath true forceAppendix d disk =
        (mapSet disk outputPath (withTrailingNewline svg4), svg4,
          multierrCombine (c.bundleLocal (c.postProcess (c.d2svgRender d false).1).1).2
            (c.bundleRemote (c.bundleLocal (c.postProcess (c.d2svgRender d false).1).1).1).2) := by
  refine ⟨_, rfl, ?_⟩
  have hdec : decide (pathExt outputPath = ".png") = false := decide_eq_false_iff_not.mpr hpng
  simp only [underscoreRender, hdec]
  rcases heqR : c.d2svgRender d false with ⟨svg0, e0⟩
  have he0 := hrender
  rw [heqR] at he0
  simp only at he0
  subst he0
  simp only [heqR]
  rcases heqP : c.postProcess svg0 with ⟨svg1, e1⟩
  have he1 := hpp svg0
  rw [heqP] at he1
  simp only at he1
  subst he1
  simp only [heqP]
  simp only [hpng, not_true, not_false_iff, and_true, if_true, if_false, ite_true, ite_false]
  unfold renderFinish
  rw [if_pos hmid, hmk, hw]
  cases multierrCombine (c.bundleLocal svg1).2 (c.bundleRemote (c.bundleLocal svg1).1).2 with
  | some e => rfl
  | none => rfl

theorem C8_witness :
    ∃ svg4,
      svg4 = (if false then
          failBundleCollab.appendixAppend detailsBoard
            (failBundleCollab.bundleRemote (failBundleCollab.bundleLocal
              (failBundleCollab.postProcess
                (failBundleCollab.d2svgRender detailsBoard false).1).1).1).1
        else (failBundleCollab.bundleRemote (failBundleCollab.bundleLocal
          (failBundleCollab.postProcess
            (failBundleCollab.d2svgRender detailsBoard false).1).1).1).1) ∧
      underscoreRender failBundleCollab { masterID := "" } "o.svg" true false detailsBoard [] =
        (mapSet [] "o.svg" (withTrailingNewline svg4), svg4,
          multierrCombine (failBundleCollab.bundleLocal
            (failBundleCollab.postProcess
              (failBundleCollab.d2svgRender detailsBoard false).1).1).2
            (failBundleCollab.bundleRemote (failBundleCollab.bundleLocal
              (failBundleCollab.postProcess
                (failBundleCollab.d2svgRender detailsBoard false).1).1).1).2) :=
  C8_bundling_errors_best_effort failBundleCollab { masterID := "" } "o.svg" false detailsBoard []
    (by decide) rfl rfl (fun b => rfl) (fun p => rfl) (fun p b => rfl)

end D2


namespace D2

/-! ### Paginated builders: export/save reachability -/

theorem renderPDFPage_events (c : Collab) (d : Diagram) (bp : List String)
    (pm : List (String × Nat)) :
    (renderPDFPage c d bp pm).1 = [] ∨ (renderPDFPage c d bp pm).1 = [DocEvent.addPage bp] := by
  cases d with
  | mk nm fo sh f ls ss ts =>
    simp only [renderPDFPage]
    split
    · split
      · left; rfl
      · split
        · left; rfl
        · split
          · left; rfl
          · split
            · left; rfl
            · split
              · left; rfl
              · split
                · left; rfl
                · right; rfl
    · left; rfl

theorem renderPDFList_no_export (c : Collab) (ds : List Diagram)
    (hP : ∀ d ∈ ds, ∀ outP bp pm p, DocEvent.exportDoc p ∉ (renderPDF c outP d false bp pm).1) :
    ∀ bp pm p, DocEvent.exportDoc p ∉ (renderPDFList c ds bp pm).1 := by
  induction ds with
  | nil => intro bp pm p; simp [renderPDFList]
  | cons dl rest ih =>
    intro bp pm p
    have hdl := hP dl (List.mem_cons_self dl rest) "" bp pm p
    rcases heq : renderPDF c "" dl false bp pm with ⟨ev, b, e⟩
    rw [heq] at hdl
    simp only at hdl
    cases e with
    | some er =>
      simp only [renderPDFList, heq]
      exact hdl
    | none =>
      rcases heq2 : renderPDFList c rest bp pm with ⟨ev', e'⟩
      have hrest := ih (fun d hd => hP d (List.mem_cons_of_mem dl hd)) bp pm p
      rw [heq2] at hrest
      simp only at hrest
      simp only [renderPDFList, heq, heq2]
      simp only [List.mem_append]
      rintro (h | h)
      · exact hdl h
      · exact hrest h

theorem renderPDF_nonroot_no_export (c : Collab) : ∀ d : Diagram,
    ∀ outP bp pm p, DocEvent.exportDoc p ∉ (renderPDF c outP d false bp pm).1 := by
  refine diagram_ind _ ?_
  intro nm fo sh f ls ss ts hls hss hts outP bp pm p
  simp only [renderPDF]
  rcases heq0 : renderPDFPage c (Diagram.mk nm fo sh f ls ss ts)
      (bp ++ [if nm = "" then getFileName outP else nm]) pm with ⟨ev0, b0, e0⟩
  have hev0 : DocEvent.exportDoc p ∉ ev0 := by
    have hpe := renderPDFPage_events c (Diagram.mk nm fo sh f ls ss ts)
      (bp ++ [if nm = "" then getFileName outP else nm]) pm
    rw [heq0] at hpe
    simp only at hpe
    rcases hpe with h | h <;> rw [h] <;> simp
  cases e0 with
  | some e =>
    simp only [heq0]
    exact hev0
  | none =>
    simp only [heq0]
    rcases heq1 : renderPDFList c ls (bp ++ [if nm = "" then getFileName outP else nm]) pm
      with ⟨ev1, e1⟩
    have hev1 := renderPDFList_no_export c ls hls
      (bp ++ [if nm = "" then getFileName outP else nm]) pm p
    rw [heq1] at hev1
    simp only at hev1
    cases e1 with
    | some e =>
      simp only [heq1]
      simp only [List.mem_append]
      rintro (h | h)
      · exact hev0 h
      · exact hev1 h
    | none =>
      simp only [heq1]
      rcases heq2 : renderPDFList c ss (bp ++ [if nm = "" then getFileName outP else nm]) pm
        with ⟨ev2, e2⟩
      have hev2 := renderPDFList_no_export c ss hss
        (bp ++ [if nm = "" then getFileName outP else nm]) pm p
      rw [heq2] at hev2
      simp only at hev2
      cases e2 with
      | some e =>
        simp only [heq2]
        simp only [List.mem_append]
        rintro ((h | h) | h)
        · exact hev0 h
        · exact hev1 h
        · exact hev2 h
      | none =>
        simp only [heq2]
        rcases heq3 : renderPDFList c ts (bp ++ [if nm = "" then getFileName outP else nm]) pm
          with ⟨ev3, e3⟩
        have hev3 := renderPDFList_no_export c ts hts
          (bp ++ [if nm = "" then getFileName outP else nm]) pm p
        rw [heq3] at hev3
        simp only at hev3
        cases e3 with
        | some e =>
          simp only [heq3]
          simp only [List.mem_append]
          rintro (((h | h) | h) | h)
          · exact hev0 h
          · exact hev1 h
          · exact hev2 h
          · exact hev3 h
        | none =>
          simp only [heq3]
          rw [if_neg (by simp : ¬(false : Bool) = true)]
          simp only [List.mem_append]
          rintro (((h | h) | h) | h)
          · exact hev0 h
          · exact hev1 h
          · exact hev2 h
          · exact hev3 h

theorem renderPDF_root_export (c : Collab) (outP : String) (d : Diagram)
    (bp : List String) (pm : List (String × Nat)) :
    (∃ ev', (renderPDF c outP d true bp pm).1 = ev' ++ [DocEvent.exportDoc outP] ∧
        (∀ p, DocEvent.exportDoc p ∉ ev') ∧
        (renderPDF c outP d true bp pm).2.2 = c.pdfExport outP) ∨
      ((∀ p, DocEvent.exportDoc p ∉ (renderPDF c outP d true bp pm).1) ∧
        ∃ e, (renderPDF c outP d true bp pm).2.2 = some e) := by
  cases d with
  | mk nm fo sh f ls ss ts =>
    simp only [renderPDF]
    rcases heq0 : renderPDFPage c (Diagram.mk nm fo sh f ls ss ts)
        (bp ++ [if nm = "" then getFileName outP else nm]) pm with ⟨ev0, b0, e0⟩
    have hev0 : ∀ p, DocEvent.exportDoc p ∉ ev0 := by
      intro p
      have hpe := renderPDFPage_events c (Diagram.mk nm fo sh f ls ss ts)
        (bp ++ [if nm = "" then getFileName outP else nm]) pm
      rw [heq0] at hpe
      simp only at hpe
      rcases hpe with h | h <;> rw [h] <;> simp
    cases e0 with
    | some e =>
      simp only [heq0]
      exact Or.inr ⟨hev0, e, rfl⟩
    | none =>
      simp only [heq0]
      rcases heq1 : renderPDFList c ls (bp ++ [if nm = "" then getFileName outP else nm]) pm
        with ⟨ev1, e1⟩
      have hev1 : ∀ p, DocEvent.exportDoc p ∉ ev1 := by
        intro p
        have := renderPDFList_no_export c ls (fun d _ => renderPDF_nonroot_no_export c d)
          (bp ++ [if nm = "" then getFileName outP else nm]) pm p
        rw [heq1] at this
        simpa using this
      cases e1 with
      | some e =>
        simp only [heq1]
        refine Or.inr ⟨?_, e, rfl⟩
        intro p
        simp only [List.mem_append]
        rintro (h | h)
        · exact hev0 p h
        · exact hev1 p h
      | none =>
        simp only [heq1]
        rcases heq2 : renderPDFList c ss (bp ++ [if nm = "" then getFileName outP else nm]) pm
          with ⟨ev2, e2⟩
        have hev2 : ∀ p, DocEvent.exportDoc p ∉ ev2 := by
          intro p
          have := renderPDFList_no_export c ss (fun d _ => renderPDF_nonroot_no_export c d)
            (bp ++ [if nm = "" then getFileName outP else nm]) pm p
          rw [heq2] at this
          simpa using this
        cases e2 with
        | some e =>
          simp only [heq2]
          refine Or.inr ⟨?_, e, rfl⟩
          intro p
          simp only [List.mem_append]
          rintro ((h | h) | h)
          · exact hev0 p h
          · exact hev1 p h
          · exact hev2 p h
        | none =>
          simp only [heq2]
          rcases heq3 : renderPDFList c ts (bp ++ [if nm = "" then getFileName outP else nm]) pm
            with ⟨ev3, e3⟩
          have hev3 : ∀ p, DocEvent.exportDoc p ∉ ev3 := by
            intro p
            have := renderPDFList_no_export c ts (fun d _ => renderPDF_nonroot_no_export c d)
              (bp ++ [if nm = "" then getFileName outP else nm]) pm p
            rw [heq3] at this
            simpa using this
          cases e3 with
          | some e =>
            simp only [heq3]
            refine Or.inr ⟨?_, e, rfl⟩
            intro p
            simp only [List.mem_append]
            rintro (((h | h) | h) | h)
            · exact hev0 p h
            · exact hev1 p h
            · exact hev2 p h
            · exact hev3 p h
          | none =>
            simp only [heq3]
            have hfree : ∀ p, DocEvent.exportDoc p ∉ ev0 ++ ev1 ++ ev2 ++ ev3 := by
              intro p
              simp only [List.mem_append]
              rintro (((h | h) | h) | h)
              · exact hev0 p h
              · exact hev1 p h
              · exact hev2 p h
              · exact hev3 p h
            cases hexp : c.pdfExport outP with
            | some e => exact Or.inl ⟨ev0 ++ ev1 ++ ev2 ++ ev3, rfl, hfree, rfl⟩
            | none => exact Or.inl ⟨ev0 ++ ev1 ++ ev2 ++ ev3, rfl, hfree, rfl⟩

end D2


namespace D2

theorem renderPPTXSlide_events (c : Collab) (d : Diagram) (bp : List String)
    (idx : List (String × Nat)) :
    ∀ ev ∈ (renderPPTXSlide c d bp idx).1,
      ev = DocEvent.addSlide bp ∨ ∃ t, ev = DocEvent.slideLink t := by
  cases d with
  | mk nm fo sh f ls ss ts =>
    simp only [renderPPTXSlide]
    split
    · split
      · intro ev hev; simp at hev
      · split
        · intro ev hev; simp at hev
        · split
          · intro ev hev; simp at hev
          · split
            · intro ev hev; simp at hev
            · split
              · intro ev hev; simp at hev
              · split
                · intro ev hev
                  simp only [List.mem_singleton] at hev
                  exact Or.inl hev
                · intro ev hev
                  simp only [List.mem_cons] at hev
                  rcases hev with rfl | hev
                  · exact Or.inl rfl
                  · rcases List.mem_map.mp hev with ⟨s, _, rfl⟩
                    exact Or.inr ⟨_, rfl⟩
    · intro ev hev; simp at hev

theorem renderPPTXList_no_save (c : Collab) (ds : List Diagram)
    (hP : ∀ d ∈ ds, ∀ outP bp idx p,
      DocEvent.saveDoc p ∉ (renderPPTX c outP d bp idx).1 ∧
      DocEvent.exportDoc p ∉ (renderPPTX c outP d bp idx).1) :
    ∀ bp idx p, DocEvent.saveDoc p ∉ (renderPPTXList c ds bp idx).1 ∧
      DocEvent.exportDoc p ∉ (renderPPTXList c ds bp idx).1 := by
  induction ds with
  | nil => intro bp idx p; simp [renderPPTXList]
  | cons dl rest ih =>
    intro bp idx p
    have hdl := hP dl (List.mem_cons_self dl rest) "" bp idx p
    rcases heq : renderPPTX c "" dl bp idx with ⟨ev, b, e⟩
    rw [heq] at hdl
    simp only at hdl
    cases e with
    | some er =>
      simp only [renderPPTXList, heq]
      exact hdl
    | none =>
      rcases heq2 : renderPPTXList c rest bp idx with ⟨ev', e'⟩
      have hrest := ih (fun d hd => hP d (List.mem_cons_of_mem dl hd)) bp idx p
      rw [heq2] at hrest
      simp only at hrest
      simp only [renderPPTXList, heq, heq2]
      constructor
      · simp only [List.mem_append]
        rintro (h | h)
        · exact hdl.1 h
        · exact hrest.1 h
      · simp only [List.mem_append]
        rintro (h | h)
        · exact hdl.2 h
        · exact hrest.2 h

theorem renderPPTX_no_save (c : Collab) : ∀ d : Diagram,
    ∀ outP bp idx p, DocEvent.saveDoc p ∉ (renderPPTX c outP d bp idx).1 ∧
      DocEvent.exportDoc p ∉ (renderPPTX c outP d bp idx).1 := by
  refine diagram_ind _ ?_
  intro nm fo sh f ls ss ts hls hss hts outP bp idx p
  simp only [renderPPTX]
  rcases heq0 : renderPPTXSlide c (Diagram.mk nm fo sh f ls ss ts)
      (bp ++ [if nm = "" then getFileName outP else nm]) idx with ⟨ev0, b0, e0⟩
  have hev0 : DocEvent.saveDoc p ∉ ev0 ∧ DocEvent.exportDoc p ∉ ev0 := by
    have hse := renderPPTXSlide_events c (Diagram.mk nm fo sh f ls ss ts)
      (bp ++ [if nm = "" then getFileName outP else nm]) idx
    rw [heq0] at hse
    simp only at hse
    constructor
    · intro h
      rcases hse _ h with hh | ⟨t, hh⟩ <;> simp at hh
    · intro h
      rcases hse _ h with hh | ⟨t, hh⟩ <;> simp at hh
  cases e0 with
  | some e =>
    simp only [heq0]
    exact hev0
  | none =>
    simp only [heq0]
    rcases heq1 : renderPPTXList c ls (bp ++ [if nm = "" then getFileName outP else nm]) idx
      with ⟨ev1, e1⟩
    have hev1 := renderPPTXList_no_save c ls hls
      (bp ++ [if nm = "" then getFileName outP else nm]) idx p
    rw [heq1] at hev1
    simp only at hev1
    cases e1 with
    | some e =>
      simp only [heq1]
      constructor
      · simp only [List.mem_append]
        rintro (h | h)
        · exact hev0.1 h
        · exact hev1.1 h
      · simp only [List.mem_append]
        rintro (h | h)
        · exact hev0.2 h
        · exact hev1.2 h
    | none =>
      simp only [heq1]
      rcases heq2 : renderPPTXList c ss (bp ++ [if nm = "" then getFileName outP else nm]) idx
        with ⟨ev2, e2⟩
      have hev2 := renderPPTXList_no_save c ss hss
        (bp ++ [if nm = "" then getFileName outP else nm]) idx p
      rw [heq2] at hev2
      simp only at hev2
      cases e2 with
      | some e =>
        simp only [heq2]
        constructor
        · simp only [List.mem_append]
          rintro ((h | h) | h)
          · exact hev0.1 h
          · exact hev1.1 h
          · exact hev2.1 h
        · simp only [List.mem_append]
          rintro ((h | h) | h)
          · exact hev0.2 h
          · exact hev1.2 h
          · exact hev2.2 h
      | none =>
        simp only [heq2]
        rcases heq3 : renderPPTXList c ts (bp ++ [if nm = "" then getFileName outP else nm]) idx
          with ⟨ev3, e3⟩
        have hev3 := renderPPTXList_no_save c ts hts
          (bp ++ [if nm = "" then getFileName outP else nm]) idx p
        rw [heq3] at hev3
        simp only at hev3
        cases e3 with
        | some e =>
          simp only [heq3]
          constructor
          · simp only [List.mem_append]
            rintro (((h | h) | h) | h)
            · exact hev0.1 h
            · exact hev1.1 h
            · exact hev2.1 h
            · exact hev3.1 h
          · simp only [List.mem_append]
            rintro (((h | h) | h) | h)
            · exact hev0.2 h
            · exact hev1.2 h
            · exact hev2.2 h
            · exact hev3.2 h
        | none =>
          simp only [heq3]
          constructor
          · simp only [List.mem_append]
            rintro (((h | h) | h) | h)
            · exact hev0.1 h
            · exact hev1.1 h
            · exact hev2.1 h
            · exact hev3.1 h
          · simp only [List.mem_append]
            rintro (((h | h) | h) | h)
            · exact hev0.2 h
            · exact hev1.2 h
            · exact hev2.2 h
            · exact hev3.2 h

theorem compilePPTX_save_once (c : Collab) (outP : String) (d : Diagram) :
    (∃ ev', (compilePPTXBranch c outP d).1 = ev' ++ [DocEvent.saveDoc outP] ∧
        (∀ p, DocEvent.saveDoc p ∉ ev') ∧
        (compilePPTXBranch c outP d).2.2.2 = c.pptxSave outP) ∨
      ((∀ p, DocEvent.saveDoc p ∉ (compilePPTXBranch c outP d).1) ∧
        ∃ e, (compilePPTXBranch c outP d).2.2.2 = some e) := by
  unfold compilePPTXBranch
  rcases heq : renderPPTX c outP d [] (buildBoardIdToIndex d none []) with ⟨ev, b, e⟩
  have hnos : ∀ p, DocEvent.saveDoc p ∉ ev := by
    intro p
    have := (renderPPTX_no_save c d outP [] (buildBoardIdToIndex d none []) p).1
    rw [heq] at this
    simpa using this
  cases e with
  | some er =>
    simp only [heq]
    exact Or.inr ⟨hnos, er, rfl⟩
  | none =>
    simp only [heq]
    cases hsv : c.pptxSave outP with
    | some er => exact Or.inl ⟨ev, rfl, hnos, rfl⟩
    | none => exact Or.inl ⟨ev, rfl, hnos, rfl⟩

/-- C6: for the paginated formats, the shared document handle is exported to
its output file exactly once, only by the outermost call, and only after the
whole depth-first traversal succeeded.  For PDF: a recursive (non-root)
`renderPDF` call never reaches `pdf.Export`; the root call either appends the
export action exactly once, as the very last action, with the call's error being
precisely the export's result (traversal succeeded), or performs no export at
all and returns an error (some recursive step failed).  For PPTX the same holds
with `p.SaveTo`, invoked by `compile`'s `.pptx` branch after `renderPPTX`
(which itself never saves or exports) returns without error. -/
theorem C6_paginated_export_once (c : Collab) :
    (∀ (d : Diagram) (outP : String) (bp : List String) (pm : List (String × Nat)) (p : String),
      DocEvent.exportDoc p ∉ (renderPDF c outP d false bp pm).1) ∧
    (∀ (d : Diagram) (outP : String) (bp : List String) (pm : List (String × Nat)),
      (∃ ev', (renderPDF c outP d true bp pm).1 = ev' ++ [DocEvent.exportDoc outP] ∧
          (∀ p, DocEvent.exportDoc p ∉ ev') ∧
          (renderPDF c outP d true bp pm).2.2 = c.pdfExport outP) ∨
        ((∀ p, DocEvent.exportDoc p ∉ (renderPDF c outP d true bp pm).1) ∧
          ∃ e, (renderPDF c outP d true bp pm).2.2 = some e)) ∧
    (∀ (d : Diagram) (outP : String) (bp : List String) (idx : List (String × Nat)) (p : String),
      DocEvent.saveDoc p ∉ (renderPPTX c outP d bp idx).1) ∧
    (∀ (d : Diagram) (outP : String),
      (∃ ev', (compilePPTXBranch c outP d).1 = ev' ++ [DocEvent.saveDoc outP] ∧
          (∀ p, DocEvent.saveDoc p ∉ ev') ∧
          (compilePPTXBranch c outP d).2.2.2 = c.pptxSave outP) ∨
        ((∀ p, DocEvent.saveDoc p ∉ (compilePPTXBranch c outP d).1) ∧
          ∃ e, (compilePPTXBranch c outP d).2.2.2 = some e)) :=
  ⟨fun d outP bp pm p => renderPDF_nonroot_no_export c d outP bp pm p,
   fun d outP bp pm => renderPDF_root_export c outP d bp pm,
   fun d outP bp idx p => (renderPPTX_no_save c d outP bp idx p).1,
   fun d outP => compilePPTX_save_once c outP d⟩

end D2

namespace D2

theorem C6_witness :
    DocEvent.exportDoc "doc.pdf" ∉ (renderPDF okCollab "doc.pdf" detailsBoard false [] []).1 :=
  (C6_paginated_export_once okCollab).1 detailsBoard "doc.pdf" [] [] "doc.pdf"

end D2
